import Mathlib

/-!
Verification of the pyAirfocusTools repository against its specification.

This file shallowly embeds the parts of the repository that the checked
properties are about:

* `src/utils.py`: the Python-dict helpers (`dinsert`, `List.lookup`), the
  registry lookups (`get_username_from_id`, `get_usergroup_name`,
  `get_user_role`), the workspace hierarchy builder
  (`build_workspace_hierarchy` / `build_node`) and the folder hierarchy
  builder (`build_folder_hierarchy`), together with the error behaviour of
  `make_api_request`.
* `src/get_okr_compliance.py` and `src/get_prodmgt_compliance.py`: the
  workspace classification (`is_okr_workspace`) and the two compliance
  formatters (`format_workspace_access`).
* `src/set_editor_role.py` and `src/set_role.py`: the member-processing
  loops of the two role-change scripts, as traces of the observable events
  (confirmation prompts, role-change API calls, skip reports).

Python dicts are modelled as association lists with Python's semantics
(first-insertion key order, last write wins); Python recursion is modelled
with an explicit fuel argument, and the fuel chosen by the top-level
builders is proved sufficient.  Fallible paths return `Option`, and the
process-level behaviour of `make_api_request` (printing and exiting on an
HTTP error, raising on some other failures) is modelled with explicit
outcome types.
-/

/-! ## Generic helpers: Python dict and string operations -/

/-- Python dict assignment `m[k] = v` on an association list: if the key is
present its value is replaced in place (key order preserved), otherwise the
pair is appended (Python dicts keep first-insertion key order; the maps
built here only ever hold one entry per key). -/
def dinsert {β : Type} : List (String × β) → String → β → List (String × β)
  | [], k, v => [(k, v)]
  | p :: ps, k, v => if p.1 = k then (k, v) :: ps else p :: dinsert ps k v

/-- Python `if k not in m: m[k] = []` followed by `m[k].append(v)`
(the children-map update in `build_workspace_hierarchy`, src/utils.py). -/
def dappend (m : List (String × List String)) (k : String) (v : String) : List (String × List String) :=
  dinsert m k ((List.lookup k m).getD [] ++ [v])

/-- The last element of a list, if any (used to state the last-write-wins
behaviour of Python dict construction). -/
def lastOpt {α : Type} : List α → Option α
  | [] => none
  | [a] => some a
  | _ :: rest => lastOpt rest

/-- Python truthiness of an optional string (`if s:`): false for a missing
value (`None`) and for the empty string. -/
def truthy (o : Option String) : Bool :=
  match o with
  | none => false
  | some s => s ≠ ""

/-- Whether `needle` is a prefix of `hay`, on character lists. -/
def listPrefixEq : List Char → List Char → Bool
  | [], _ => true
  | _ :: _, [] => false
  | a :: as, b :: bs => a == b && listPrefixEq as bs

/-- Python's `str.lower()` (ASCII case folding), written over the
character list so that it evaluates in the kernel. -/
def pyLower (s : String) : String := ⟨s.data.map Char.toLower⟩

/-- Python's `str.startswith(pre)`, written over character lists. -/
def pyStartsWith (s pre : String) : Bool := listPrefixEq pre.data s.data

/-- Python's `str.endswith(suf)`, written over character lists. -/
def pyEndsWith (s suf : String) : Bool := listPrefixEq suf.data.reverse s.data.reverse

/-- Python's `str.strip()`: drop whitespace from both ends. -/
def pyStrip (s : String) : String :=
  ⟨((s.data.dropWhile Char.isWhitespace).reverse.dropWhile Char.isWhitespace).reverse⟩

/-- Whether `needle` occurs as a contiguous run inside `hay`, on character
lists (Python's `needle in hay` for strings). -/
def listContains (needle : List Char) : List Char → Bool
  | [] => listPrefixEq needle []
  | c :: rest => listPrefixEq needle (c :: rest) || listContains needle rest

/-- Python's substring test `needle in hay`. -/
def strContains (hay needle : String) : Bool :=
  listContains needle.toList hay.toList

/-- Stable insertion of a key-value pair into a list sorted by key
(helper for `sortPairs`). -/
def insertSorted (p : String × String) : List (String × String) → List (String × String)
  | [] => [p]
  | q :: rest => if p.1 ≤ q.1 then p :: q :: rest else q :: insertSorted p rest

/-- Python's `sorted(d.items())` on a string-keyed dict: entries in
ascending key order (keys are unique in a dict, so comparing keys is
enough). -/
def sortPairs (l : List (String × String)) : List (String × String) :=
  l.foldr insertSorted []

/-! ## Data model (src/utils.py and the Airfocus API payloads)

Workspace / user / group objects are Python dicts coming from the API;
fields that the code reads with `.get(...)` defaults are modelled as
`Option`s.  The `namespace` field can be a string, a dict (with a `typeId`
entry) or missing, which `is_okr_workspace` distinguishes with
`isinstance` checks. -/

/-- The `namespace` field of a workspace object: a string (like
`"app:okr"`), a dict with an optional `typeId` entry, or absent. -/
inductive NamespaceField where
  | missing
  | str (s : String)
  | dict (typeId : Option String)
deriving DecidableEq

/-- A workspace object, with the fields the embedded functions read.
`permissions` and `userGroupPermissions` are the `_embedded` permission
dicts (user id / group id to permission string). -/
structure Workspace where
  id : String
  name : Option String
  nspace : NamespaceField
  itemType : Option String
  itemColor : Option String
  aliasKey : Option String
  defaultPermission : Option String
  permissions : List (String × String)
  userGroupPermissions : List (String × String)
deriving DecidableEq

/-- A user object from `/api/team/users` as stored in `_user_registry`. -/
structure User where
  userId : String
  fullName : Option String
  email : Option String
  role : Option String
deriving DecidableEq

/-- A user-group entry of `_group_registry` (built by `load_registries`
with defaults already applied, so `name` is the `.get('name', ...)`
result source). -/
structure UserGroup where
  id : String
  name : Option String
  userIds : List String
deriving DecidableEq

/-- A workspace relation item from
`/api/workspaces/workspace-relations/search`; the code reads `parentId`
and `childId` with `.get`, so both are optional.  (Named `WsRelation` to
avoid clashing with Mathlib's `Relation` namespace.) -/
structure WsRelation where
  parentId : Option String
  childId : Option String
deriving DecidableEq

/-- A node of the workspace hierarchy: `{'workspace': ..., 'children': [...]}`. -/
inductive Node where
  | mk (workspace : Workspace) (children : List Node)

/-- The `'workspace'` entry of a node. -/
def Node.workspace : Node → Workspace
  | .mk w _ => w

/-- The `'children'` entry of a node. -/
def Node.children : Node → List Node
  | .mk _ c => c

/-- The dict returned by `build_workspace_hierarchy`:
`{'roots': [...], 'map': {root_id: node}}`. -/
structure Hierarchy where
  roots : List Node
  map : List (String × Node)

/-! ## Registry lookups (src/utils.py)

The module-level registries `_user_registry` / `_group_registry` are
passed explicitly (they are plain dicts filled once by
`load_registries`). -/

/-- `get_username_from_id` (src/utils.py lines 159-175):
`user.get('fullName') or user.get('email') or user_id` for a registered
user, the raw id otherwise.  Python's `or` falls through on `None` and on
the empty string. -/
def get_username_from_id (users : List (String × User)) (user_id : String) : String :=
  match List.lookup user_id users with
  | some user =>
    if truthy user.fullName then user.fullName.getD ""
    else if truthy user.email then user.email.getD ""
    else user_id
  | none => user_id

/-- `get_usergroup_name` (src/utils.py lines 178-200):
`group.get('name', 'Unknown Group')` for a registered group, the raw id
otherwise. -/
def get_usergroup_name (groups : List (String × UserGroup)) (group_id : String) : String :=
  match List.lookup group_id groups with
  | some group => group.name.getD "Unknown Group"
  | none => group_id

/-- `get_user_role` (src/utils.py lines 207-223): `user.get('role', '')`
for a registered user, the empty string otherwise. -/
def get_user_role (users : List (String × User)) (user_id : String) : String :=
  match List.lookup user_id users with
  | some user => user.role.getD ""
  | none => ""

/-! ## Workspace hierarchy builder (src/utils.py lines 335-421)

`build_workspace_hierarchy(workspaces)` fetches the relation list from the
API and builds the forest; the relation list is passed explicitly here.
The recursion of `build_node` is modelled with a fuel argument (`none`
means the fuel ran out, or a `workspace_map[ws_id]` access failed); the
top-level builder passes `len(workspace_map) + 1` fuel, which is proved
sufficient below, so the embedded builder never returns `none`. -/

/-- The `workspace_map = {ws['id']: ws for ws in workspaces}` dict. -/
def wsMapOf (workspaces : List Workspace) : List (String × Workspace) :=
  workspaces.foldl (fun m ws => dinsert m ws.id ws) []

/-- The ids of the workspace snapshot, in list order. -/
def idsOf (workspaces : List Workspace) : List String :=
  workspaces.map (fun ws => ws.id)

/-- One iteration of the relation loop of `build_workspace_hierarchy`
(src/utils.py lines 365-373): for a relation with truthy `parentId` and
`childId`, append the child to `children_map[parent]` and set
`parent_map[child] = parent`; otherwise do nothing. -/
def relStep (acc : List (String × List String) × List (String × String)) (r : WsRelation) :
    List (String × List String) × List (String × String) :=
  if truthy r.parentId ∧ truthy r.childId then
    ⟨dappend acc.1 (r.parentId.getD "") (r.childId.getD ""), dinsert acc.2 (r.childId.getD "") (r.parentId.getD "")⟩
  else acc

/-- The `children_map` dict built from the relation list. -/
def children_map_of (relations : List WsRelation) : List (String × List String) :=
  (relations.foldl relStep ([], [])).1

/-- The `parent_map` dict built from the relation list. -/
def parent_map_of (relations : List WsRelation) : List (String × String) :=
  (relations.foldl relStep ([], [])).2

/-- Lookup in `parent_map`: the declared parent of a child id (the parent
of the last relation that mentions the child, by dict overwrite). -/
def pmF (relations : List WsRelation) (x : String) : Option String :=
  List.lookup x (parent_map_of relations)

/-- Lookup in `children_map` with Python's "no entry means no children". -/
def cmF (relations : List WsRelation) (p : String) : List String :=
  (List.lookup p (children_map_of relations)).getD []

/-- One step up the parent map: `stepUp relations a b` states that the
declared parent of `a` is `b`.  Cycles of the relation graph are cycles of
the transitive closure of this relation. -/
def stepUp (relations : List WsRelation) (a b : String) : Prop :=
  pmF relations a = some b

/-- The child ids of the relations the builder actually records (both
endpoints truthy), in relation order. -/
def truthyChildIds (relations : List WsRelation) : List String :=
  relations.filterMap (fun r =>
    if truthy r.parentId ∧ truthy r.childId then some (r.childId.getD "") else none)

/-- The loop `for child_id in children_map[ws_id]: if child_id in
workspace_map: node['children'].append(build_node(child_id, visited.copy()))`,
with the recursive call abstracted as `f`. -/
def build_nodes_aux (wsMap : List (String × Workspace)) (f : String → Option Node) :
    List String → Option (List Node)
  | [] => some []
  | c :: cs =>
    if (List.lookup c wsMap).isSome then
      match f c, build_nodes_aux wsMap f cs with
      | some nd, some nds => some (nd :: nds)
      | _, _ => none
    else build_nodes_aux wsMap f cs

/-- `build_node` (src/utils.py lines 379-407): cycle check against the
per-path `visited` set (returning a childless node on a repeat), then
recursive expansion of the children, each child receiving a copy of
`visited ∪ {ws_id}`. -/
def build_node (wsMap : List (String × Workspace)) (cm : List (String × List String)) :
    Nat → String → List String → Option Node
  | 0, _, _ => none
  | fuel + 1, wsId, visited =>
    match List.lookup wsId wsMap with
    | none => none
    | some ws =>
      if wsId ∈ visited then some (Node.mk ws [])
      else
        match build_nodes_aux wsMap
            (fun c => build_node wsMap cm fuel c (wsId :: visited))
            ((List.lookup wsId cm).getD []) with
        | none => none
        | some children => some (Node.mk ws children)

/-- The root loop of `build_workspace_hierarchy` (src/utils.py lines
409-416): build a node per root id (the `root_id in workspace_map` check
is kept from the source) and record it in `node_map`. -/
def build_roots (wsMap : List (String × Workspace)) (cm : List (String × List String))
    (fuel : Nat) : List String → Option (List Node × List (String × Node))
  | [] => some ([], [])
  | r :: rest =>
    if (List.lookup r wsMap).isSome then
      match build_node wsMap cm fuel r [], build_roots wsMap cm fuel rest with
      | some nd, some (ns, nm) => some (nd :: ns, (r, nd) :: nm)
      | _, _ => none
    else build_roots wsMap cm fuel rest

/-- `build_workspace_hierarchy` (src/utils.py lines 335-421), with the
relation list passed explicitly in place of the API call.  Root ids are
the workspace ids with no `parent_map` entry. -/
def build_workspace_hierarchy (workspaces : List Workspace) (relations : List WsRelation) :
    Option Hierarchy :=
  let wsMap := wsMapOf workspaces
  let cm := children_map_of relations
  let pm := parent_map_of relations
  let root_ids := (wsMap.map Prod.fst).filter (fun k => (List.lookup k pm).isNone)
  match build_roots wsMap cm (wsMap.length + 1) root_ids with
  | some (ns, nm) => some ⟨ns, nm⟩
  | none => none

mutual

/-- Number of occurrences in a node's subtree of nodes carrying the
workspace id `x`. -/
def countNode (x : String) : Node → Nat
  | .mk ws children => (if ws.id = x then 1 else 0) + countNodes x children

/-- Total occurrences of workspace id `x` in a forest. -/
def countNodes (x : String) : List Node → Nat
  | [] => 0
  | n :: ns => countNode x n + countNodes x ns

end

mutual

/-- Number of parent/child incidences in a node's subtree in which a node
carrying id `p` has a direct child carrying id `x`. -/
def countChildOcc (p x : String) : Node → Nat
  | .mk ws children =>
    (if ws.id = p then (children.filter (fun c => c.workspace.id = x)).length else 0)
      + countChildOccs p x children

/-- Total `p`-has-direct-child-`x` incidences in a forest. -/
def countChildOccs (p x : String) : List Node → Nat
  | [] => 0
  | n :: ns => countChildOcc p x n + countChildOccs p x ns

end

/-! ## Folder hierarchy builder (src/utils.py lines 618-750) and the
error behaviour of `make_api_request` (src/utils.py lines 85-100)

`make_api_request` catches `requests.exceptions.RequestException`
internally: it prints `API request failed` and calls `sys.exit(1)`.
`SystemExit` does not inherit from `Exception`, so the
`try/except Exception` blocks in `build_folder_hierarchy` cannot catch it:
an HTTP-level failure terminates the process.  Only an ordinary exception
raised through `make_api_request` (for example a malformed payload) is
caught by those blocks.  Each API call is therefore modelled as one of
three outcomes. -/

/-- Outcome of one API call as seen by a caller of `make_api_request`:
the parsed payload, an HTTP/network failure (a `RequestException`, which
`make_api_request` turns into `sys.exit(1)`), or an ordinary exception
raised through the call (which a caller's `except Exception` can catch). -/
inductive ApiOutcome (α : Type) where
  | ok (val : α)
  | httpError (msg : String)
  | raised (msg : String)

/-- Result of running `build_folder_hierarchy`: the process exited (via
`sys.exit` inside `make_api_request`), or the function returned, together
with the warnings it printed.  `crashed` stands for an unhandled error in
the pure part (a dict `KeyError` or exhausted recursion fuel); it is never
produced on the inputs considered here. -/
inductive FolderRun (α : Type) where
  | exited (code : Nat)
  | finished (warnings : List String) (val : α)
  | crashed

/-- A workspace group (folder) item from `/api/workspaces/groups/search`:
only `id` and `parentId` are read from it. -/
structure FolderBasic where
  id : String
  parentId : Option String
deriving DecidableEq

/-- A folder from `/api/workspaces/groups/list` with embedded data; the
builder reads its `id` and the ids of the `_embedded.workspaces` list. -/
structure FolderE where
  id : String
  name : Option String
  embWorkspaceIds : List String
deriving DecidableEq

/-- A node of the folder hierarchy: either a folder
`{'is_folder': True, 'folder_data': ..., 'children': [...], 'workspaces': [...]}`
(its `workspaces` entries are `{'workspace': ..., 'children': []}` nodes),
or an orphaned workspace promoted to the root level
(`{'workspace': ..., 'children': []}`). -/
inductive FNode where
  | folderNode (folderData : FolderE) (children : List FNode) (workspaces : List Node)
  | workspaceNode (workspace : Workspace)

/-- The dict returned by `build_folder_hierarchy`:
`{'roots': [...], 'folder_map': {...}}`. -/
structure FolderHierarchy where
  roots : List FNode
  folder_map : List (String × FolderE)

/-- The `folders_with_embed` dict: entries of the `groups/list` response,
skipping `null` entries (inaccessible folders), keyed by folder id. -/
def foldersWithEmbedOf (lst : List (Option FolderE)) : List (String × FolderE) :=
  lst.foldl (fun m of =>
    match of with
    | some f => dinsert m f.id f
    | none => m) []

/-- The `workspace_to_folder` dict: for each folder (in dict order), each
embedded workspace id is mapped to the folder id (last write wins when a
workspace is listed in several folders). -/
def workspaceToFolderOf (folderMap : List (String × FolderE)) : List (String × String) :=
  folderMap.foldl (fun m p =>
    p.2.embWorkspaceIds.foldl (fun m2 wid => dinsert m2 wid p.1) m) []

/-- The folder parent/child maps built from the `groups/search` items
(src/utils.py lines 677-687). -/
def folderLinksOf (foldersBasic : List FolderBasic) :
    List (String × List String) × List (String × String) :=
  foldersBasic.foldl (fun acc f =>
    if truthy f.parentId then
      ⟨dappend acc.1 (f.parentId.getD "") f.id, dinsert acc.2 f.id (f.parentId.getD "")⟩
    else acc) ([], [])

/-- `build_folder_node` (src/utils.py lines 695-731): cycle check against
the per-path `visited` set, the folder's member workspaces collected from
`workspace_to_folder`, then recursive expansion of the subfolders, each
receiving a copy of `visited ∪ {folder_id}`.  `none` models a
`folder_map[folder_id]` `KeyError` or exhausted fuel. -/
def build_folder_node (folderMap : List (String × FolderE))
    (wsMap : List (String × Workspace)) (wtf : List (String × String))
    (fc : List (String × List String)) :
    Nat → String → List String → Option FNode
  | 0, _, _ => none
  | fuel + 1, folderId, visited =>
    match List.lookup folderId folderMap with
    | none => none
    | some fd =>
      if folderId ∈ visited then some (FNode.folderNode fd [] [])
      else
        let wsNodes := wtf.filterMap (fun p =>
          if p.2 = folderId then
            match List.lookup p.1 wsMap with
            | some ws => some (Node.mk ws [])
            | none => none
          else none)
        match ((List.lookup folderId fc).getD []).mapM
            (fun c => build_folder_node folderMap wsMap wtf fc fuel c (folderId :: visited)) with
        | none => none
        | some children => some (FNode.folderNode fd children wsNodes)

/-- `build_folder_hierarchy` (src/utils.py lines 618-750), with the two
API calls passed as explicit outcomes.  An `httpError` on either call is
`sys.exit(1)` inside `make_api_request` (uncaught, since `SystemExit` is
not an `Exception`); a `raised` exception is caught by the surrounding
`try/except Exception`, which prints a warning and continues with the
fetched data treated as empty.  The `groups/list` call is only made when
there is at least one folder id. -/
def build_folder_hierarchy (workspaces : List Workspace)
    (searchOutcome : ApiOutcome (List FolderBasic))
    (listOutcome : ApiOutcome (List (Option FolderE))) : FolderRun FolderHierarchy :=
  match searchOutcome with
  | .httpError _ => .exited 1
  | other =>
    let searchWarnings :=
      match other with
      | .raised e => ["Warning: Could not fetch workspace groups: " ++ e]
      | _ => []
    let foldersBasic :=
      match other with
      | .ok items => items
      | _ => []
    let folderIds := foldersBasic.map (fun f => f.id)
    match (if folderIds.isEmpty then ApiOutcome.ok [] else listOutcome) with
    | .httpError _ => .exited 1
    | listOther =>
      let listWarnings :=
        match listOther with
        | .raised e => ["Warning: Could not fetch folder details: " ++ e]
        | _ => []
      let foldersWithEmbed :=
        match listOther with
        | .ok lst => foldersWithEmbedOf lst
        | _ => []
      let folderMap := foldersWithEmbed
      let wsMap := wsMapOf workspaces
      let wtf := workspaceToFolderOf folderMap
      let links := folderLinksOf foldersBasic
      let rootFolderIds := (folderMap.map Prod.fst).filter
        (fun k => (List.lookup k links.2).isNone)
      let orphanedIds := (wsMap.map Prod.fst).filter
        (fun k => (List.lookup k wtf).isNone)
      match rootFolderIds.mapM
          (fun fid => build_folder_node folderMap wsMap wtf links.1 (folderMap.length + 1) fid []) with
      | none => .crashed
      | some folderRoots =>
        let orphanRoots := orphanedIds.filterMap (fun wid =>
          match List.lookup wid wsMap with
          | some ws => some (FNode.workspaceNode ws)
          | none => none)
        .finished (searchWarnings ++ listWarnings) ⟨folderRoots ++ orphanRoots, folderMap⟩

/-! ## Text formatting helpers (src/utils.py lines 424-464) -/

/-- `format_permission` (src/utils.py lines 424-433). -/
def format_permission (permission : String) : String :=
  (List.lookup permission
    [("none", "None"), ("read", "Read"), ("comment", "Comment"),
     ("write", "Write"), ("full", "Full")]).getD permission

/-- The ANSI color table of `colorize` (src/utils.py lines 447-457). -/
def ansi_color_map : List (String × String) :=
  [("red", "\x1b[91m"), ("green", "\x1b[92m"), ("yellow", "\x1b[93m"),
   ("blue", "\x1b[94m"), ("magenta", "\x1b[95m"), ("cyan", "\x1b[96m"),
   ("white", "\x1b[97m"), ("orange", "\x1b[38;5;208m"), ("reset", "\x1b[0m")]

/-- `colorize` (src/utils.py lines 436-464): wrap the text in the ANSI
code of the (lower-cased) color name, or return it unchanged for an
unknown color. -/
def colorize (text color : String) : String :=
  let color_code := (List.lookup (pyLower color) ansi_color_map).getD ""
  let reset_code := "\x1b[0m"
  if color_code ≠ "" then color_code ++ text ++ reset_code else text

/-- Python's `".." * n` depth prefix used by the hierarchy formatters. -/
def dots (n : Nat) : String :=
  String.join (List.replicate n "..")

/-! ## Workspace classification and compliance formatters
(src/get_okr_compliance.py, src/get_prodmgt_compliance.py) -/

/-- `is_okr_workspace` (src/get_okr_compliance.py lines 25-57), also
imported by src/get_prodmgt_compliance.py: the workspace is OKR-related
when its `namespace` (a string, or the `typeId` of a dict) or its
`itemType` contains `"okr"` case-insensitively; missing fields default to
the empty string. -/
def is_okr_workspace (workspace : Workspace) : Bool :=
  let namespace_hit :=
    match workspace.nspace with
    | .missing => strContains (pyLower "") "okr"
    | .str s => strContains (pyLower s) "okr"
    | .dict typeId => strContains (pyLower (typeId.getD "")) "okr"
  if namespace_hit then true
  else if strContains (pyLower (workspace.itemType.getD "")) "okr" then true
  else false

/-- `WORKSPACE_COLOR_MAPPING`, imported from `utils` by
src/get_prodmgt_compliance.py.  Modelled from the spec: the constant is
missing from src/utils.py (only its importer and the assertions of
src/test_utils.py see it); per those tests and the spec's valid-color set
it maps yellow/orange/great/blue to terminal colors, `great` to green.
It equals the inline `color_mapping` of src/get_okr_compliance.py. -/
def WORKSPACE_COLOR_MAPPING : List (String × String) :=
  [("yellow", "yellow"), ("orange", "orange"), ("great", "green"), ("blue", "blue")]

/-- The group-permission `highlight` chain of the OKR formatter
(src/get_okr_compliance.py lines 246-260): flag a group that neither
starts with `SP_OKR_` nor is `Airfocus Admins`; otherwise flag a group
ending in `_F` without `full` permission, or ending in `_W` without
`write` permission. -/
def okrGroupMismatch (group_name permission : String) : Bool :=
  if ¬ pyStartsWith group_name "SP_OKR_" ∧ group_name ≠ "Airfocus Admins" then true
  else if pyEndsWith group_name "_F" ∧ permission ≠ "full" then true
  else if pyEndsWith group_name "_W" ∧ permission ≠ "write" then true
  else false

/-- The group-permission `highlight` chain of the ProdMgt formatter
(src/get_prodmgt_compliance.py lines 164-185): flag a group that neither
starts with `SP_ProdMgt_` nor is `Airfocus Admins`; otherwise flag a
group ending in `_F_U` without `full`, `_W_U` without `write`, or `_C_U`
without `comment` permission. -/
def prodmgtGroupMismatch (group_name permission : String) : Bool :=
  if ¬ pyStartsWith group_name "SP_ProdMgt_" ∧ group_name ≠ "Airfocus Admins" then true
  else if pyEndsWith group_name "_F_U" ∧ permission ≠ "full" then true
  else if pyEndsWith group_name "_W_U" ∧ permission ≠ "write" then true
  else if pyEndsWith group_name "_C_U" ∧ permission ≠ "comment" then true
  else false

namespace OkrCompliance

/-- `format_workspace_access` (src/get_okr_compliance.py lines 98-294).
The registries consulted by `get_username_from_id` / `get_usergroup_name`
are passed explicitly.  Returns the formatted lines and the
`has_red_flag` boolean; the flag is the disjunction of the individual
`has_red_flag = True` assignments of the source (user access, invalid
color, invalid item key, non-comment default permission when present, and
any highlighted group entry). -/
def format_workspace_access (users : List (String × User)) (groups : List (String × UserGroup))
    (workspace : Workspace) (current_user_id : String) (depth : Nat) (show_all : Bool) :
    List String × Bool :=
  let user_permissions := workspace.permissions
  let has_user_access := user_permissions.any (fun p => p.1 ≠ current_user_id)
  let pfx := dots depth
  let ws_name := workspace.name.getD "Unnamed"
  let item_key := workspace.aliasKey.getD ""
  let item_color := workspace.itemColor.getD ""
  let color_mapping := WORKSPACE_COLOR_MAPPING
  let workspace_color : Option String :=
    if item_color ≠ "" ∧ (List.lookup item_color color_mapping).isSome then
      List.lookup item_color color_mapping
    else none
  let group_permissions := workspace.userGroupPermissions
  let default_permission := workspace.defaultPermission
  let detail_indent := dots (depth + 1)
  let valid_colors := ["yellow", "orange", "great", "blue"]
  let color_is_red : Bool := item_color = "" ∨ item_color ∉ valid_colors
  let color_base := detail_indent ++ "Color: " ++ (if item_color ≠ "" then item_color else "(empty)")
  let color_line :=
    if color_is_red then colorize (color_base ++ " (Wrong)") "red"
    else match workspace_color with
      | some wc => colorize color_base wc
      | none => color_base
  let seg_color := if show_all ∨ color_is_red then [color_line] else []
  let key_is_red : Bool := item_key = "" ∨ ¬ pyStartsWith item_key "OKR"
  let key_base := detail_indent ++ "Item Key: " ++ (if item_key ≠ "" then item_key else "(empty)")
  let key_line :=
    if key_is_red then
      match workspace_color with
      | some wc => colorize key_base wc ++ colorize " (Wrong)" "red"
      | none => colorize (key_base ++ " (Wrong)") "red"
    else match workspace_color with
      | some wc => colorize key_base wc
      | none => key_base
  let seg_key := if show_all ∨ key_is_red then [key_line] else []
  let default_is_red : Bool := truthy default_permission && default_permission.getD "" ≠ "comment"
  let seg_default :=
    if truthy default_permission then
      let dp := default_permission.getD ""
      let default_base := detail_indent ++ "Default: " ++ format_permission dp
      let line :=
        if dp ≠ "comment" then
          match workspace_color with
          | some wc => colorize default_base wc ++ colorize " (Wrong)" "red"
          | none => colorize (default_base ++ " (Wrong)") "red"
        else match workspace_color with
          | some wc => colorize default_base wc
          | none => default_base
      if show_all ∨ dp ≠ "comment" then [line] else []
    else []
  let user_perms_filtered := user_permissions.filter (fun p => p.1 ≠ current_user_id)
  let sub_indent := dots (depth + 2)
  let seg_users :=
    if user_perms_filtered.isEmpty then [] else
      let users_header := detail_indent ++ "Users:"
      let users_header :=
        match workspace_color with
        | some wc => colorize users_header wc
        | none => users_header
      users_header :: (sortPairs user_perms_filtered).map (fun p =>
        let user_name := get_username_from_id users p.1
        let perm_str := format_permission p.2
        let base := sub_indent ++ user_name ++ ": " ++ perm_str
        match workspace_color with
        | some wc => colorize base wc ++ colorize " (Wrong)" "red"
        | none => colorize (base ++ " (Wrong)") "red")
  let groups_header_plain := detail_indent ++ "Groups:"
  let groups_header_colored :=
    match workspace_color with
    | some wc => colorize groups_header_plain wc
    | none => groups_header_plain
  let lines0 := seg_color ++ seg_key ++ seg_default ++ seg_users
    ++ (if ¬ group_permissions.isEmpty ∧ show_all then [groups_header_colored] else [])
  let lines1 := (sortPairs group_permissions).foldl (fun acc p =>
    let group_name := get_usergroup_name groups p.1
    let perm_str := format_permission p.2
    let highlight := okrGroupMismatch group_name p.2
    let base := sub_indent ++ group_name ++ ": " ++ perm_str
    let group_line :=
      if highlight then
        match workspace_color with
        | some wc => colorize base wc ++ colorize " (Wrong)" "red"
        | none => colorize (base ++ " (Wrong)") "red"
      else match workspace_color with
        | some wc => colorize base wc
        | none => base
    if show_all ∨ highlight then
      if ¬ show_all ∧ highlight ∧ groups_header_plain ∉ acc then
        acc ++ [groups_header_colored, group_line]
      else acc ++ [group_line]
    else acc) lines0
  let has_red_flag : Bool := has_user_access || color_is_red || key_is_red || default_is_red
    || (sortPairs group_permissions).any (fun p => okrGroupMismatch (get_usergroup_name groups p.1) p.2)
  let name_base := pfx ++ ws_name
  let workspace_name_line :=
    match workspace_color with
    | some wc =>
      if has_red_flag then colorize name_base wc ++ colorize " (Wrong)" "red"
      else colorize name_base wc
    | none =>
      if has_red_flag then colorize (name_base ++ " (Wrong)") "red"
      else name_base
  (workspace_name_line :: lines1, has_red_flag)

end OkrCompliance

namespace ProdMgtCompliance

/-- `format_workspace_access` (src/get_prodmgt_compliance.py lines
44-221).  Unlike the OKR formatter, color, item key and default
permission are display-only here (no validation, no flag); the flag is
the disjunction of the `has_red_flag = True` assignments of the source
(user access and any highlighted group entry). -/
def format_workspace_access (users : List (String × User)) (groups : List (String × UserGroup))
    (workspace : Workspace) (current_user_id : String) (depth : Nat) (show_all : Bool) :
    List String × Bool :=
  let user_permissions := workspace.permissions
  let has_user_access := user_permissions.any (fun p => p.1 ≠ current_user_id)
  let pfx := dots depth
  let ws_name := workspace.name.getD "Unnamed"
  let item_key := workspace.aliasKey.getD ""
  let item_color := workspace.itemColor.getD ""
  let workspace_color : Option String :=
    if item_color ≠ "" ∧ (List.lookup item_color WORKSPACE_COLOR_MAPPING).isSome then
      List.lookup item_color WORKSPACE_COLOR_MAPPING
    else none
  let group_permissions := workspace.userGroupPermissions
  let default_permission := workspace.defaultPermission
  let detail_indent := dots (depth + 1)
  let color_base := detail_indent ++ "Color: " ++ (if item_color ≠ "" then item_color else "(empty)")
  let color_line :=
    match workspace_color with
    | some wc => colorize color_base wc
    | none => color_base
  let seg_color := if show_all then [color_line] else []
  let key_base := detail_indent ++ "Item Key: " ++ (if item_key ≠ "" then item_key else "(empty)")
  let key_line :=
    match workspace_color with
    | some wc => colorize key_base wc
    | none => key_base
  let seg_key := if show_all then [key_line] else []
  let seg_default :=
    if truthy default_permission then
      let default_base := detail_indent ++ "Default: " ++ format_permission (default_permission.getD "")
      let line :=
        match workspace_color with
        | some wc => colorize default_base wc
        | none => default_base
      if show_all then [line] else []
    else []
  let user_perms_filtered := user_permissions.filter (fun p => p.1 ≠ current_user_id)
  let sub_indent := dots (depth + 2)
  let seg_users :=
    if user_perms_filtered.isEmpty then [] else
      let users_header := detail_indent ++ "Users:"
      let users_header :=
        match workspace_color with
        | some wc => colorize users_header wc
        | none => users_header
      users_header :: (sortPairs user_perms_filtered).map (fun p =>
        let user_name := get_username_from_id users p.1
        let perm_str := format_permission p.2
        let base := sub_indent ++ user_name ++ ": " ++ perm_str
        match workspace_color with
        | some wc => colorize base wc ++ colorize " (Wrong)" "red"
        | none => colorize (base ++ " (Wrong)") "red")
  let groups_header_plain := detail_indent ++ "Groups:"
  let groups_header_colored :=
    match workspace_color with
    | some wc => colorize groups_header_plain wc
    | none => groups_header_plain
  let lines0 := seg_color ++ seg_key ++ seg_default ++ seg_users
    ++ (if ¬ group_permissions.isEmpty ∧ show_all then [groups_header_colored] else [])
  let lines1 := (sortPairs group_permissions).foldl (fun acc p =>
    let group_name := get_usergroup_name groups p.1
    let perm_str := format_permission p.2
    let highlight := prodmgtGroupMismatch group_name p.2
    let base := sub_indent ++ group_name ++ ": " ++ perm_str
    let group_line :=
      if highlight then
        match workspace_color with
        | some wc => colorize base wc ++ colorize " (Wrong)" "red"
        | none => colorize (base ++ " (Wrong)") "red"
      else match workspace_color with
        | some wc => colorize base wc
        | none => base
    if show_all ∨ highlight then
      if ¬ show_all ∧ highlight ∧ groups_header_plain ∉ acc then
        acc ++ [groups_header_colored, group_line]
      else acc ++ [group_line]
    else acc) lines0
  let has_red_flag : Bool := has_user_access
    || (sortPairs group_permissions).any (fun p => prodmgtGroupMismatch (get_usergroup_name groups p.1) p.2)
  let name_base := pfx ++ ws_name
  let workspace_name_line :=
    match workspace_color with
    | some wc =>
      if has_red_flag then colorize name_base wc ++ colorize " (Wrong)" "red"
      else colorize name_base wc
    | none =>
      if has_red_flag then colorize (name_base ++ " (Wrong)") "red"
      else name_base
  (workspace_name_line :: lines1, has_red_flag)

end ProdMgtCompliance

/-! ## Role-change script runs (src/set_editor_role.py, src/set_role.py)

Each script run is modelled as the list of its observable events:
confirmation prompts on standard input, role-change API calls
(`set_user_role`, which issues `POST /api/team/users/role`), and per-user
skip/dry-run reports. -/

/-- An observable event of a role-change script run. -/
inductive ScriptEvent where
  | skipReport (user_id reason : String)
  | dryRunReport (user_id : String)
  | promptConfirm
  | apiSetRole (user_id role : String)
deriving DecidableEq

/-- Processing of one group member by `main` of src/set_editor_role.py
(lines 75-114): skip users already editors, skip admins (`CRITICAL: Do
not touch administrators!`), skip non-contributors; otherwise either
report a dry run or call `set_user_role(user_id, 'editor')` directly —
there is no confirmation prompt anywhere in this script. -/
def set_editor_role_member (users : List (String × User)) (dry_run : Bool)
    (user_id : String) : List ScriptEvent :=
  let current_role := get_user_role users user_id
  if current_role = "editor" then [.skipReport user_id "already editor"]
  else if current_role = "admin" then [.skipReport user_id "admin role protected"]
  else if current_role ≠ "contributor" then [.skipReport user_id "not a contributor"]
  else if dry_run then [.dryRunReport user_id]
  else [.apiSetRole user_id "editor"]

/-- The member loop of src/set_editor_role.py `main` as an event trace. -/
def set_editor_role_run (users : List (String × User)) (member_ids : List String)
    (dry_run : Bool) : List ScriptEvent :=
  (member_ids.map (set_editor_role_member users dry_run)).flatten

/-- The source role of a target role in src/set_role.py `main` (lines
126-132): promoting contributors to editor, or demoting editors to
contributor. -/
def set_role_source (target_role : String) : String :=
  if target_role = "editor" then "contributor" else "editor"

/-- One iteration of the first pass of src/set_role.py `main` (lines
177-197): classify a member into the planned changes
`(user_id, current_role)` or the skipped users
`(user_id, current_role, reason)` (the display name stored alongside in
the source is presentation-only and omitted here). -/
def set_role_step (users : List (String × User)) (target_role : String)
    (acc : List (String × String) × List (String × String × String)) (user_id : String) :
    List (String × String) × List (String × String × String) :=
  let current_role := get_user_role users user_id
  if current_role = target_role then
    ⟨acc.1, acc.2 ++ [(user_id, current_role, "already " ++ target_role)]⟩
  else if current_role = "admin" then
    ⟨acc.1, acc.2 ++ [(user_id, current_role, "admin role protected")]⟩
  else if current_role ≠ set_role_source target_role then
    ⟨acc.1, acc.2 ++ [(user_id, current_role, "not a " ++ set_role_source target_role)]⟩
  else ⟨acc.1 ++ [(user_id, current_role)], acc.2⟩

/-- The first pass fold itself. -/
def set_role_first_pass (users : List (String × User)) (target_role : String)
    (member_ids : List String) :
    List (String × String) × List (String × String × String) :=
  member_ids.foldl (set_role_step users target_role) ([], [])

/-- src/set_role.py `main` (lines 173-258) as an event trace, given the
line read from standard input at the confirmation prompt: report the
skipped users, then — only when there are changes to make — prompt for
confirmation, and apply the changes via `set_user_role` only when the
stripped, lower-cased response is exactly `y` (anything else exits
without mutating). -/
def set_role_run (users : List (String × User)) (member_ids : List String)
    (target_role : String) (response : String) : List ScriptEvent :=
  let fp := set_role_first_pass users target_role member_ids
  let changes := fp.1
  let skipped := fp.2
  let skipEvents := skipped.map (fun s => ScriptEvent.skipReport s.1 s.2.2)
  if changes.isEmpty then skipEvents
  else
    skipEvents ++ [ScriptEvent.promptConfirm] ++
      (if pyLower (pyStrip response) = "y" then
        changes.map (fun c => ScriptEvent.apiSetRole c.1 target_role)
      else [])

/-! ## Derived notions about the relation graph

These definitions are used to state properties of
`build_workspace_hierarchy`: the per-child parent lists underlying the
dict construction, reachability along declared parents, and acyclicity
(the spec's "the relation graph contains no cycles"). -/

/-- The parents declared for child `c` by the recorded relations (both
endpoints truthy), in relation order; `parent_map[c]` is its last
element. -/
def parentsOf (relations : List WsRelation) (c : String) : List String :=
  relations.filterMap (fun r =>
    if truthy r.parentId ∧ truthy r.childId ∧ r.childId.getD "" = c then
      some (r.parentId.getD "") else none)

/-- The children declared for parent `p` by the recorded relations, in
relation order; `children_map[p]` is exactly this list. -/
def childrenOf (relations : List WsRelation) (p : String) : List String :=
  relations.filterMap (fun r =>
    if truthy r.parentId ∧ truthy r.childId ∧ r.parentId.getD "" = p then
      some (r.childId.getD "") else none)

/-- `reaches relations x y`: `y` is an ancestor of `x` (or `x` itself)
along the declared-parent map. -/
def reaches (relations : List WsRelation) (x y : String) : Prop :=
  Relation.ReflTransGen (stepUp relations) x y

/-- The relation graph has no cycles: no workspace is a strict ancestor
of itself along the declared-parent map. -/
def acyclicRels (relations : List WsRelation) : Prop :=
  ∀ x, ¬ Relation.TransGen (stepUp relations) x x

/-- Iterated climb along the declared-parent map, stalling at a root
(used to find the root ancestor of a workspace). -/
def iterUp (relations : List WsRelation) : Nat → String → String
  | 0, x => x
  | n + 1, x =>
    match pmF relations (iterUp relations n x) with
    | none => iterUp relations n x
    | some p => p

/-! ## Concrete example data (used by witnesses and counterexamples) -/

/-- Example workspace with id `a` and no other data. -/
def wsA : Workspace := ⟨"a", some "A", .missing, none, none, none, none, [], []⟩

/-- Example workspace with id `b` and no other data. -/
def wsB : Workspace := ⟨"b", some "B", .missing, none, none, none, none, [], []⟩

/-- Example workspace with id `w` and no other data. -/
def wsW : Workspace := ⟨"w", some "W", .missing, none, none, none, none, [], []⟩

/-- Example workspace with every classification field empty or missing. -/
def wsEmptyFields : Workspace := ⟨"x", none, .missing, none, none, none, none, [], []⟩

/-- Example OKR workspace that satisfies every OKR formatter rule except
that its group `g1` (named `SP_OKR_X_F_U`) carries `comment` permission. -/
def wsSuffixFU : Workspace :=
  ⟨"c6", some "C6", .str "app:okr", none, some "yellow", some "OKR-1", some "comment",
    [], [("g1", "comment")]⟩

/-- Example group registry entry for `wsSuffixFU`. -/
def grpFU : UserGroup := ⟨"g1", some "SP_OKR_X_F_U", []⟩

/-- Example workspace whose only anomaly is the color `purple`. -/
def wsPurple : Workspace := ⟨"p7", some "P7", .missing, none, some "purple", none, none, [], []⟩

/-- Example user registry: one contributor, one admin, one editor, one
user with an empty display name, one with neither name nor email. -/
def usersEx : List (String × User) :=
  [("u1", ⟨"u1", some "U One", some "u1@x", some "contributor"⟩),
   ("u2", ⟨"u2", some "U Two", some "u2@x", some "admin"⟩),
   ("u3", ⟨"u3", some "U Three", some "u3@x", some "editor"⟩),
   ("u4", ⟨"u4", some "", some "u4@x", some "contributor"⟩),
   ("u5", ⟨"u5", none, none, some "contributor"⟩)]

/-! # Theorems -/

/-! ## C1: folder detail fetch failure -/

/-- C1 (code_bug evidence): on an HTTP-level failure of the
`/api/workspaces/groups/list` call (a `requests.RequestException`),
`build_folder_hierarchy` does not warn and continue — `make_api_request`
prints and calls `sys.exit(1)`, and `SystemExit` escapes the
`try/except Exception` block, so the process terminates with exit code 1
and no hierarchy is returned.  The claimed warn-and-continue behaviour
does occur for an ordinary raised exception (second and third
conjuncts), matching the intent documented by the source's warning
strings and by `test_make_api_request_handles_errors`, which expects
`make_api_request` to raise an `Exception` rather than exit. -/
theorem c1_folder_fetch_http_error_exits_process :
    build_folder_hierarchy [wsW] (.ok [⟨"f1", none⟩]) (.httpError "connection refused")
      = .exited 1
    ∧ build_folder_hierarchy [wsW] (.raised "boom") (.ok [])
      = .finished ["Warning: Could not fetch workspace groups: boom"]
          ⟨[FNode.workspaceNode wsW], []⟩
    ∧ build_folder_hierarchy [wsW] (.ok [⟨"f1", none⟩]) (.raised "boom")
      = .finished ["Warning: Could not fetch folder details: boom"]
          ⟨[FNode.workspaceNode wsW], []⟩ := by
  refine ⟨rfl, rfl, rfl⟩

/-! ## C8: `is_okr_workspace` classification -/

/-- Boolean shape of the `is_okr_workspace` decision chain. -/
theorem if_chain_or (a b : Bool) :
    (if a = true then true else if b = true then true else false) = (a || b) := by
  cases a <;> cases b <;> rfl

/-- C8: `is_okr_workspace` returns true iff the namespace field (when a
string), the namespace's `typeId` (when a dict) or the `itemType` field
contains `"okr"` case-insensitively, and returns false when those fields
are all empty or missing. -/
theorem c8_is_okr_workspace_characterization (ws : Workspace) :
    (is_okr_workspace ws = true ↔
      ((∃ s, ws.nspace = .str s ∧ strContains (pyLower s) "okr" = true)
        ∨ (∃ t, ws.nspace = .dict t ∧ strContains (pyLower (t.getD "")) "okr" = true)
        ∨ strContains (pyLower (ws.itemType.getD "")) "okr" = true))
    ∧ ((ws.nspace = .missing ∨ ws.nspace = .str "" ∨ ws.nspace = .dict none
          ∨ ws.nspace = .dict (some "")) →
        (ws.itemType = none ∨ ws.itemType = some "") →
        is_okr_workspace ws = false) := by
  have hmain : ∀ ws : Workspace, is_okr_workspace ws = true ↔
      ((∃ s, ws.nspace = .str s ∧ strContains (pyLower s) "okr" = true)
        ∨ (∃ t, ws.nspace = .dict t ∧ strContains (pyLower (t.getD "")) "okr" = true)
        ∨ strContains (pyLower (ws.itemType.getD "")) "okr" = true) := by
    intro ws
    unfold is_okr_workspace
    rcases hns : ws.nspace with _ | s | t
    · rw [if_chain_or]
      have h0 : strContains (pyLower "") "okr" = false := by decide
      simp [h0]
    · rw [if_chain_or]
      simp [Bool.or_eq_true]
    · rw [if_chain_or]
      simp [Bool.or_eq_true]
  refine ⟨hmain ws, ?_⟩
  intro hns hit
  rw [Bool.eq_false_iff]
  intro htrue
  rcases (hmain ws).1 htrue with ⟨s, hs, hc⟩ | ⟨t, ht2, hc⟩ | hc
  · rcases hns with h | h | h | h <;> rw [h] at hs <;> cases hs <;> exact absurd hc (by decide)
  · rcases hns with h | h | h | h <;> rw [h] at ht2 <;> cases ht2 <;> exact absurd hc (by decide)
  · rcases hit with h | h <;> rw [h] at hc <;> exact absurd hc (by decide)

/-- Witness for C8, applying the theorem at a workspace with all
classification fields missing. -/
theorem c8_witness : is_okr_workspace wsEmptyFields = false :=
  (c8_is_okr_workspace_characterization wsEmptyFields).2 (Or.inl rfl) (Or.inl rfl)

/-! ## C9: `get_username_from_id` resolution order -/

/-- C9: for a registered user id, `get_username_from_id` returns the
display name when present (and non-empty, per Python truthiness), else
the email when present (and non-empty), else the raw id; for an
unregistered id it returns the raw id unchanged. -/
theorem c9_get_username_from_id_resolution (users : List (String × User)) (uid : String) :
    (∀ u, List.lookup uid users = some u →
      ((∀ n, u.fullName = some n → n ≠ "" → get_username_from_id users uid = n)
        ∧ (truthy u.fullName = false →
            ∀ e, u.email = some e → e ≠ "" → get_username_from_id users uid = e)
        ∧ (truthy u.fullName = false → truthy u.email = false →
            get_username_from_id users uid = uid)))
    ∧ (List.lookup uid users = none → get_username_from_id users uid = uid) := by
  constructor
  · intro u hu
    refine ⟨?_, ?_, ?_⟩
    · intro n hn hne
      have ht : truthy u.fullName = true := by rw [hn]; simpa [truthy] using hne
      simp only [get_username_from_id, hu, ht, if_true]
      rw [hn]; rfl
    · intro hf e he hne
      have ht : truthy u.email = true := by rw [he]; simpa [truthy] using hne
      simp only [get_username_from_id, hu, hf, ht, if_true, Bool.false_eq_true, if_false]
      rw [he]; rfl
    · intro hf he
      simp [get_username_from_id, hu, hf, he]
  · intro hnone
    simp [get_username_from_id, hnone]

/-- Witness for C9, applying the theorem on a concrete registry: `u1` has
a display name, `u4` has an empty display name and falls through to the
email, `u5` has neither and resolves to the raw id, and an unknown id is
returned unchanged. -/
theorem c9_witness :
    get_username_from_id usersEx "u1" = "U One"
    ∧ get_username_from_id usersEx "u4" = "u4@x"
    ∧ get_username_from_id usersEx "u5" = "u5"
    ∧ get_username_from_id usersEx "zz" = "zz" :=
  ⟨((c9_get_username_from_id_resolution usersEx "u1").1
      ⟨"u1", some "U One", some "u1@x", some "contributor"⟩ (by decide)).1 "U One" rfl (by decide),
   ((c9_get_username_from_id_resolution usersEx "u4").1
      ⟨"u4", some "", some "u4@x", some "contributor"⟩ (by decide)).2.1 (by decide) "u4@x" rfl (by decide),
   ((c9_get_username_from_id_resolution usersEx "u5").1
      ⟨"u5", none, none, some "contributor"⟩ (by decide)).2.2 (by decide) (by decide),
   (c9_get_username_from_id_resolution usersEx "zz").2 (by decide)⟩

/-! ## C6: group naming / permission rules of the compliance formatters -/

/-- C6 counterexample: in the OKR formatter, a group named
`SP_OKR_X_F_U` carrying `comment` permission is a suffix-coded group
(`_F_U`) whose permission differs from `full`, yet its entry is not
flagged — `'SP_OKR_X_F_U'.endswith('_F')` is false, and the OKR
formatter checks only the `_F` and `_W` suffixes — so the whole
workspace reports no violation. -/
theorem c6_counterexample :
    okrGroupMismatch "SP_OKR_X_F_U" "comment" = false
    ∧ (OkrCompliance.format_workspace_access [] [("g1", grpFU)] wsSuffixFU "me" 0 false).2
        = false := by
  constructor
  · decide
  · decide

/-- C6 amended: in both formatters a group entry failing the
prefix/admin test is flagged; among entries passing it, the OKR
formatter flags exactly the `_F` groups without `full` permission and
the `_W` groups without `write` permission (the `_F_U`/`_W_U`/`_C_U`
suffixes are not checked there, and no name ending in `_U` matches the
`_F`/`_W` rules), while the ProdMgt formatter flags exactly the `_F_U`
groups without `full`, the `_W_U` groups without `write` and the `_C_U`
groups without `comment` permission (bare `_F`/`_W` are not checked
there). -/
theorem c6_group_rule_characterization (name perm : String) :
    okrGroupMismatch name perm =
      ((!(pyStartsWith name "SP_OKR_") && !(name == "Airfocus Admins"))
        || ((pyStartsWith name "SP_OKR_" || name == "Airfocus Admins")
            && ((pyEndsWith name "_F" && !(perm == "full"))
              || (pyEndsWith name "_W" && !(perm == "write")))))
    ∧ prodmgtGroupMismatch name perm =
      ((!(pyStartsWith name "SP_ProdMgt_") && !(name == "Airfocus Admins"))
        || ((pyStartsWith name "SP_ProdMgt_" || name == "Airfocus Admins")
            && ((pyEndsWith name "_F_U" && !(perm == "full"))
              || (pyEndsWith name "_W_U" && !(perm == "write"))
              || (pyEndsWith name "_C_U" && !(perm == "comment"))))) := by
  constructor
  · unfold okrGroupMismatch
    cases h1 : pyStartsWith name "SP_OKR_" <;>
      cases h2 : (name == "Airfocus Admins") <;>
      cases h3 : pyEndsWith name "_F" <;>
      cases h4 : pyEndsWith name "_W" <;>
      by_cases h5 : perm = "full" <;>
      by_cases h6 : perm = "write" <;>
      simp_all [beq_iff_eq]
  · unfold prodmgtGroupMismatch
    cases h1 : pyStartsWith name "SP_ProdMgt_" <;>
      cases h2 : (name == "Airfocus Admins") <;>
      cases h3 : pyEndsWith name "_F_U" <;>
      cases h4 : pyEndsWith name "_W_U" <;>
      cases h5 : pyEndsWith name "_C_U" <;>
      by_cases h6 : perm = "full" <;>
      by_cases h7 : perm = "write" <;>
      by_cases h8 : perm = "comment" <;>
      simp_all [beq_iff_eq]

/-! ## C2 / C10 helper lemmas about the role-script traces -/

/-- Skip-report events carry no API call or prompt. -/
theorem mem_map_skipReport {l : List (String × String × String)} {e : ScriptEvent}
    (he : e ∈ l.map (fun s => ScriptEvent.skipReport s.1 s.2.2)) :
    ∃ u r, e = ScriptEvent.skipReport u r := by
  rcases List.mem_map.1 he with ⟨s, _, rfl⟩
  exact ⟨_, _, rfl⟩

/-- Case analysis of the events emitted for one member of
src/set_editor_role.py. -/
theorem set_editor_role_member_cases (users : List (String × User)) (d : Bool) (m : String)
    (e : ScriptEvent) (he : e ∈ set_editor_role_member users d m) :
    (∃ r, e = ScriptEvent.skipReport m r)
      ∨ (e = ScriptEvent.dryRunReport m ∧ d = true)
      ∨ (e = ScriptEvent.apiSetRole m "editor" ∧ d = false
          ∧ get_user_role users m = "contributor") := by
  simp only [set_editor_role_member] at he
  split_ifs at he with h1 h2 h3 h4
  · rcases List.mem_singleton.1 he with rfl
    exact Or.inl ⟨_, rfl⟩
  · rcases List.mem_singleton.1 he with rfl
    exact Or.inl ⟨_, rfl⟩
  · rcases List.mem_singleton.1 he with rfl
    exact Or.inl ⟨_, rfl⟩
  · rcases List.mem_singleton.1 he with rfl
    exact Or.inr (Or.inl ⟨rfl, h4⟩)
  · rcases List.mem_singleton.1 he with rfl
    push_neg at h3
    exact Or.inr (Or.inr ⟨rfl, by simpa using h4, h3⟩)

/-- One step of the first-pass fold of src/set_role.py only appends. -/
theorem set_role_step_shape (users : List (String × User)) (target : String)
    (acc : List (String × String) × List (String × String × String)) (m : String) :
    ∃ s1 s2, set_role_step users target acc m = (acc.1 ++ s1, acc.2 ++ s2) := by
  simp only [set_role_step]
  split_ifs with h1 h2 h3
  · exact ⟨[], [(m, get_user_role users m, "already " ++ target)], by simp⟩
  · exact ⟨[], [(m, get_user_role users m, "admin role protected")], by simp⟩
  · exact ⟨[], [(m, get_user_role users m, "not a " ++ set_role_source target)], by simp⟩
  · exact ⟨[(m, get_user_role users m)], [], by simp⟩

/-- Monotonicity of the first-pass fold of src/set_role.py: the
accumulated change and skip lists only grow. -/
theorem set_role_fold_mono (users : List (String × User)) (target : String) :
    ∀ (mids : List String) (acc : List (String × String) × List (String × String × String)),
    ∃ t1 t2, mids.foldl (set_role_step users target) acc = (acc.1 ++ t1, acc.2 ++ t2) := by
  intro mids
  induction mids with
  | nil => exact fun acc => ⟨[], [], by simp⟩
  | cons m rest ih =>
    intro acc
    rcases ih (set_role_step users target acc m) with ⟨t1, t2, ht⟩
    rcases set_role_step_shape users target acc m with ⟨s1, s2, hs⟩
    rw [List.foldl_cons, ht, hs]
    exact ⟨s1 ++ t1, s2 ++ t2, by simp⟩

/-- Every planned change of the first pass of src/set_role.py records the
member's registry role, which is the source role — in particular not
`admin`. -/
theorem set_role_changes_spec (users : List (String × User)) (target : String)
    (mids : List String) :
    ∀ p ∈ (set_role_first_pass users target mids).1,
      p.2 = get_user_role users p.1 ∧ p.2 = set_role_source target ∧ p.2 ≠ "admin"
        ∧ p.2 ≠ target := by
  have main : ∀ (l : List String) (acc : List (String × String) × List (String × String × String)),
      (∀ p ∈ acc.1, p.2 = get_user_role users p.1 ∧ p.2 = set_role_source target
        ∧ p.2 ≠ "admin" ∧ p.2 ≠ target) →
      ∀ p ∈ (l.foldl (set_role_step users target) acc).1,
        p.2 = get_user_role users p.1 ∧ p.2 = set_role_source target
          ∧ p.2 ≠ "admin" ∧ p.2 ≠ target := by
    intro l
    induction l with
    | nil => exact fun acc h => h
    | cons m rest ih =>
      intro acc hacc
      rw [List.foldl_cons]
      refine ih _ ?_
      simp only [set_role_step]
      split_ifs with h1 h2 h3
      · exact hacc
      · exact hacc
      · exact hacc
      · intro p hp
        rcases List.mem_append.1 hp with hp | hp
        · exact hacc p hp
        · push_neg at h3
          rcases List.mem_singleton.1 hp with rfl
          exact ⟨rfl, h3, fun hc => h2 hc, fun hc => h1 hc⟩
  exact main mids ([], []) (by simp)

/-- If an admin member is processed by the first pass of src/set_role.py
(with a target role other than `admin`), the admin-protected skip entry
is recorded. -/
theorem set_role_admin_skipped (users : List (String × User)) (target : String)
    (htarget : target ≠ "admin") (mids : List String) (uid : String)
    (hmem : uid ∈ mids) (hadmin : get_user_role users uid = "admin") :
    (uid, "admin", "admin role protected") ∈ (set_role_first_pass users target mids).2 := by
  have main : ∀ (l : List String) (acc : List (String × String) × List (String × String × String)),
      uid ∈ l →
      (uid, "admin", "admin role protected") ∈ (l.foldl (set_role_step users target) acc).2 := by
    intro l
    induction l with
    | nil => intro acc h; cases h
    | cons m rest ih =>
      intro acc hm
      rw [List.foldl_cons]
      rcases List.mem_cons.1 hm with rfl | hm
      · rcases set_role_fold_mono users target rest (set_role_step users target acc uid)
          with ⟨t1, t2, ht⟩
        rw [ht]
        have hstep : (set_role_step users target acc uid).2
            = acc.2 ++ [(uid, "admin", "admin role protected")] := by
          simp only [set_role_step]
          rw [hadmin, if_neg (fun hc => htarget hc.symm), if_pos rfl]
        rw [hstep]
        simp
      · exact ih _ hm
  exact main mids ([], []) hmem

/-! ## C2: confirmation before mutation -/

/-- C2 counterexample: a run of src/set_editor_role.py without `--dry-run`
over one contributor member issues the role-change API call with no
confirmation prompt anywhere in its trace — the script has no
confirmation prompt at all. -/
theorem c2_counterexample :
    set_editor_role_run usersEx ["u1"] false = [ScriptEvent.apiSetRole "u1" "editor"]
    ∧ ScriptEvent.promptConfirm ∉ set_editor_role_run usersEx ["u1"] false := by
  constructor
  · decide
  · decide

/-- C2 amended: src/set_role.py gates every role-change call behind the
confirmation prompt — with any stdin response other than (stripped,
lower-cased) `y` no call is issued, and any issued call sits after the
prompt in the trace, with no call before it; src/set_editor_role.py
never prompts: with `--dry-run` it issues no role-change call, and
without it it issues the calls directly (no prompt occurs in any of its
traces). -/
theorem c2_confirmation_gating :
    (∀ (users : List (String × User)) (member_ids : List String) (target response : String),
      pyLower (pyStrip response) ≠ "y" →
      ∀ uid role, ScriptEvent.apiSetRole uid role ∉ set_role_run users member_ids target response)
    ∧ (∀ (users : List (String × User)) (member_ids : List String) (target response uid role : String),
      ScriptEvent.apiSetRole uid role ∈ set_role_run users member_ids target response →
      ∃ pre post, set_role_run users member_ids target response = pre ++ ScriptEvent.promptConfirm :: post
        ∧ ScriptEvent.apiSetRole uid role ∈ post
        ∧ ∀ u r, ScriptEvent.apiSetRole u r ∉ pre)
    ∧ (∀ (users : List (String × User)) (member_ids : List String) (uid role : String),
      ScriptEvent.apiSetRole uid role ∉ set_editor_role_run users member_ids true)
    ∧ (∀ (users : List (String × User)) (member_ids : List String) (dry_run : Bool),
      ScriptEvent.promptConfirm ∉ set_editor_role_run users member_ids dry_run) := by
  refine ⟨?_, ?_, ?_, ?_⟩
  · intro users member_ids target response hresp uid role hmem
    simp only [set_role_run] at hmem
    split_ifs at hmem with h1
    · rcases mem_map_skipReport hmem with ⟨u, r, h⟩
      cases h
    · rcases List.mem_append.1 hmem with hm | hm
      · rcases List.mem_append.1 hm with hm | hm
        · rcases mem_map_skipReport hm with ⟨u, r, h⟩
          cases h
        · rcases List.mem_singleton.1 hm with h
          cases h
      · cases hm
  · intro users member_ids target response uid role hmem
    simp only [set_role_run] at hmem ⊢
    split_ifs at hmem with h1 h2
    · rcases mem_map_skipReport hmem with ⟨u, r, h⟩
      cases h
    · rw [if_neg h1, if_pos h2]
      refine ⟨(set_role_first_pass users target member_ids).2.map
          (fun s => ScriptEvent.skipReport s.1 s.2.2),
        (set_role_first_pass users target member_ids).1.map
          (fun c => ScriptEvent.apiSetRole c.1 target), by simp, ?_, ?_⟩
      · rcases List.mem_append.1 hmem with hm | hm
        · rcases List.mem_append.1 hm with hm | hm
          · rcases mem_map_skipReport hm with ⟨u, r, h⟩
            cases h
          · rcases List.mem_singleton.1 hm with h
            cases h
        · exact hm
      · intro u r hr
        rcases mem_map_skipReport hr with ⟨u2, r2, h⟩
        cases h
    · rcases List.mem_append.1 hmem with hm | hm
      · rcases List.mem_append.1 hm with hm | hm
        · rcases mem_map_skipReport hm with ⟨u2, r2, h⟩
          cases h
        · rcases List.mem_singleton.1 hm with h
          cases h
      · cases hm
  · intro users member_ids uid role hmem
    simp only [set_editor_role_run] at hmem
    rcases List.mem_flatten.1 hmem with ⟨l, hl, hel⟩
    rcases List.mem_map.1 hl with ⟨m, _, rfl⟩
    rcases set_editor_role_member_cases users true m _ hel with ⟨r, h⟩ | ⟨h, _⟩ | ⟨h, hd, _⟩
    · cases h
    · cases h
    · cases hd
  · intro users member_ids dry_run hmem
    simp only [set_editor_role_run] at hmem
    rcases List.mem_flatten.1 hmem with ⟨l, hl, hel⟩
    rcases List.mem_map.1 hl with ⟨m, _, rfl⟩
    rcases set_editor_role_member_cases users dry_run m _ hel with ⟨r, h⟩ | ⟨h, _⟩ | ⟨h, _, _⟩
    · cases h
    · cases h
    · cases h

/-- Witness for C2's amended theorem, applying it on a concrete run:
with a `n` response src/set_role.py issues no call, and the dry run of
src/set_editor_role.py issues none either. -/
theorem c2_witness :
    ScriptEvent.apiSetRole "u1" "editor" ∉ set_role_run usersEx ["u1"] "editor" "n"
    ∧ ScriptEvent.apiSetRole "u1" "editor" ∉ set_editor_role_run usersEx ["u1"] true :=
  ⟨c2_confirmation_gating.1 usersEx ["u1"] "editor" "n" (by decide) "u1" "editor",
   c2_confirmation_gating.2.2.1 usersEx ["u1"] "u1" "editor"⟩

/-! ## C10: administrators are never mutated -/

/-- C10: a group member whose registry role is `admin` is reported as
skipped (`admin role protected`) by both role-change scripts, and no
role-change API call is ever issued for that member, whatever the
dry-run flag, target role (among the script's `editor`/`contributor`
choices) and confirmation response. -/
theorem c10_admin_roles_never_changed (users : List (String × User)) (member_ids : List String)
    (uid : String) (hmem : uid ∈ member_ids) (hadmin : get_user_role users uid = "admin") :
    (∀ dry_run : Bool,
      ScriptEvent.skipReport uid "admin role protected" ∈ set_editor_role_run users member_ids dry_run
      ∧ ∀ role, ScriptEvent.apiSetRole uid role ∉ set_editor_role_run users member_ids dry_run)
    ∧ (∀ target response : String, target = "editor" ∨ target = "contributor" →
      ScriptEvent.skipReport uid "admin role protected" ∈ set_role_run users member_ids target response
      ∧ ∀ role, ScriptEvent.apiSetRole uid role ∉ set_role_run users member_ids target response) := by
  constructor
  · intro dry_run
    constructor
    · simp only [set_editor_role_run]
      refine List.mem_flatten.2 ⟨set_editor_role_member users dry_run uid, List.mem_map_of_mem _ hmem, ?_⟩
      simp only [set_editor_role_member]
      rw [hadmin, if_neg (by decide), if_pos rfl]
      exact List.mem_singleton.2 rfl
    · intro role hmem2
      simp only [set_editor_role_run] at hmem2
      rcases List.mem_flatten.1 hmem2 with ⟨l, hl, hel⟩
      rcases List.mem_map.1 hl with ⟨m, _, rfl⟩
      rcases set_editor_role_member_cases users dry_run m _ hel with ⟨r, h⟩ | ⟨h, _⟩ | ⟨h, _, hrole⟩
      · cases h
      · cases h
      · cases h
        exact absurd (hrole.symm.trans hadmin) (by decide)
  · intro target response htarget
    have htne : target ≠ "admin" := by
      rcases htarget with h | h <;> rw [h] <;> decide
    have hskip := set_role_admin_skipped users target htne member_ids uid hmem hadmin
    constructor
    · simp only [set_role_run]
      split_ifs with h1 h2
      · exact List.mem_map.2 ⟨(uid, "admin", "admin role protected"), hskip, rfl⟩
      · exact List.mem_append.2 (Or.inl (List.mem_append.2 (Or.inl
          (List.mem_map.2 ⟨(uid, "admin", "admin role protected"), hskip, rfl⟩))))
      · exact List.mem_append.2 (Or.inl (List.mem_append.2 (Or.inl
          (List.mem_map.2 ⟨(uid, "admin", "admin role protected"), hskip, rfl⟩))))
    · intro role hmem2
      simp only [set_role_run] at hmem2
      split_ifs at hmem2 with h1 h2
      · rcases mem_map_skipReport hmem2 with ⟨u, r, h⟩
        cases h
      · rcases List.mem_append.1 hmem2 with hm | hm
        · rcases List.mem_append.1 hm with hm | hm
          · rcases mem_map_skipReport hm with ⟨u, r, h⟩
            cases h
          · rcases List.mem_singleton.1 hm with h
            cases h
        · rcases List.mem_map.1 hm with ⟨c, hc, hceq⟩
          cases hceq
          rcases set_role_changes_spec users target member_ids c hc with ⟨hr1, _, hr3, _⟩
          rw [← hr1] at hadmin
          exact hr3 hadmin
      · rcases List.mem_append.1 hmem2 with hm | hm
        · rcases List.mem_append.1 hm with hm | hm
          · rcases mem_map_skipReport hm with ⟨u, r, h⟩
            cases h
          · rcases List.mem_singleton.1 hm with h
            cases h
        · cases hm

/-- Witness for C10, applying the theorem with the admin `u2` of the
example registry. -/
theorem c10_witness :
    ScriptEvent.skipReport "u2" "admin role protected" ∈ set_editor_role_run usersEx ["u2"] false
    ∧ ScriptEvent.apiSetRole "u2" "editor" ∉ set_role_run usersEx ["u2"] "editor" "y" :=
  ⟨((c10_admin_roles_never_changed usersEx ["u2"] "u2" (by decide) (by decide)).1 false).1,
   ((c10_admin_roles_never_changed usersEx ["u2"] "u2" (by decide) (by decide)).2 "editor" "y"
     (Or.inl rfl)).2 "editor"⟩

/-! ## Dict lemmas: `dinsert` / `List.lookup` -/

/-- Python dict assignment: lookup after `dinsert` finds the new value at
the inserted key and is unchanged elsewhere. -/
theorem lookup_dinsert {β : Type} (m : List (String × β)) (k : String) (v : β) (c : String) :
    List.lookup c (dinsert m k v) = if c = k then some v else List.lookup c m := by
  induction m with
  | nil =>
    simp only [dinsert, List.lookup_cons]
    by_cases hck : c = k
    · subst hck
      simp
    · simp only [if_neg hck]
      have hb : (c == k) = false := by simpa using hck
      rw [hb]
  | cons p ps ih =>
    rcases p with ⟨pk, pv⟩
    simp only [dinsert]
    by_cases hp : pk = k
    · rw [if_pos hp]
      subst hp
      simp only [List.lookup_cons]
      by_cases hck : c = pk
      · subst hck
        simp
      · have hb : (c == pk) = false := by simpa using hck
        rw [hb, if_neg hck]
    · rw [if_neg hp]
      simp only [List.lookup_cons]
      by_cases hcp : c = pk
      · subst hcp
        simp only [beq_self_eq_true]
        have : c ≠ k := fun hc => hp hc
        rw [if_neg this]
      · have hb : (c == pk) = false := by simpa using hcp
        simp only [hb]
        exact ih

/-- Lookup after `dappend`: the appended child lands at the end of the
key's list, other keys are unchanged. -/
theorem lookup_dappend (m : List (String × List String)) (k v c : String) :
    List.lookup c (dappend m k v)
      = if c = k then some ((List.lookup k m).getD [] ++ [v]) else List.lookup c m := by
  unfold dappend
  exact lookup_dinsert m k _ c

/-! ## `lastOpt` lemmas -/

/-- Unfolding `lastOpt` over a cons. -/
theorem lastOpt_cons {α : Type} (a : α) (l : List α) :
    lastOpt (a :: l) = match lastOpt l with | none => some a | some b => some b := by
  cases l with
  | nil => rfl
  | cons x xs =>
    have h : ∀ (l' : List α), l' ≠ [] → ∃ b, lastOpt l' = some b := by
      intro l'
      induction l' with
      | nil => intro h; cases h rfl
      | cons y ys ih =>
        intro _
        cases ys with
        | nil => exact ⟨y, rfl⟩
        | cons z zs =>
          rcases ih (by simp) with ⟨b, hb⟩
          exact ⟨b, hb⟩
    rcases h (x :: xs) (by simp) with ⟨b, hb⟩
    rw [show lastOpt (a :: x :: xs) = lastOpt (x :: xs) from rfl, hb]

/-- `lastOpt` is `none` exactly on the empty list. -/
theorem lastOpt_eq_none {α : Type} (l : List α) : lastOpt l = none ↔ l = [] := by
  cases l with
  | nil => simp [lastOpt]
  | cons x xs =>
    rw [lastOpt_cons]
    cases h : lastOpt xs <;> simp

/-- The last element is an element. -/
theorem lastOpt_mem {α : Type} (l : List α) (a : α) (h : lastOpt l = some a) : a ∈ l := by
  induction l with
  | nil => cases h
  | cons x xs ih =>
    rw [lastOpt_cons] at h
    cases hx : lastOpt xs with
    | none =>
      rw [hx] at h
      cases h
      exact List.mem_cons_self _ _
    | some b =>
      rw [hx] at h
      cases h
      exact List.mem_cons_of_mem _ (ih hx)

/-- `lastOpt` over an append looks at the second list first. -/
theorem lastOpt_append {α : Type} (l1 l2 : List α) :
    lastOpt (l1 ++ l2) = match lastOpt l2 with | none => lastOpt l1 | some b => some b := by
  induction l1 with
  | nil =>
    cases h : lastOpt l2
    · rw [List.nil_append, h]
      rfl
    · rw [List.nil_append, h]
  | cons x xs ih =>
    rw [List.cons_append, lastOpt_cons, ih, lastOpt_cons]
    cases h2 : lastOpt l2 <;> cases hx : lastOpt xs <;> rfl

/-! ## Characterization of the relation-loop folds -/

/-- The `parent_map` built by the relation loop: lookup of a child is the
parent of the last recorded relation naming it, falling back to the
accumulator. -/
theorem pm_fold_char (rels : List WsRelation) :
    ∀ (acc : List (String × List String) × List (String × String)) (c : String),
    List.lookup c (rels.foldl relStep acc).2
      = match lastOpt (parentsOf rels c) with
        | some p => some p
        | none => List.lookup c acc.2 := by
  induction rels with
  | nil => intro acc c; rfl
  | cons r rest ih =>
    intro acc c
    rw [List.foldl_cons]
    rw [ih (relStep acc r) c]
    have hpar : parentsOf (r :: rest) c
        = (if truthy r.parentId ∧ truthy r.childId ∧ r.childId.getD "" = c
            then [r.parentId.getD ""] else []) ++ parentsOf rest c := by
      simp only [parentsOf, List.filterMap_cons]
      split_ifs <;> rfl
    rw [hpar, lastOpt_append]
    cases hrest : lastOpt (parentsOf rest c) with
    | some p => rfl
    | none =>
      have hstep : List.lookup c (relStep acc r).2
          = if truthy r.parentId ∧ truthy r.childId ∧ r.childId.getD "" = c
            then some (r.parentId.getD "") else List.lookup c acc.2 := by
        unfold relStep
        by_cases htr : truthy r.parentId = true ∧ truthy r.childId = true
        · rw [if_pos htr]
          rw [lookup_dinsert]
          by_cases hc : c = r.childId.getD ""
          · rw [if_pos hc, if_pos ⟨htr.1, htr.2, hc.symm⟩]
          · rw [if_neg hc, if_neg (fun hh => hc hh.2.2.symm)]
        · rw [if_neg htr]
          rw [if_neg (fun hh => htr ⟨hh.1, hh.2.1⟩)]
      rw [hstep]
      split_ifs with hcond
      · rfl
      · rfl

/-- The `children_map` built by the relation loop: the entry of a parent
is the accumulator's entry followed by the recorded children, in relation
order. -/
theorem cm_fold_char (rels : List WsRelation) :
    ∀ (acc : List (String × List String) × List (String × String)) (p : String),
    (List.lookup p (rels.foldl relStep acc).1).getD []
      = (List.lookup p acc.1).getD [] ++ childrenOf rels p := by
  induction rels with
  | nil => intro acc p; simp [childrenOf]
  | cons r rest ih =>
    intro acc p
    rw [List.foldl_cons]
    rw [ih (relStep acc r) p]
    have hch : childrenOf (r :: rest) p
        = (if truthy r.parentId ∧ truthy r.childId ∧ r.parentId.getD "" = p
            then [r.childId.getD ""] else []) ++ childrenOf rest p := by
      simp only [childrenOf, List.filterMap_cons]
      split_ifs <;> rfl
    rw [hch]
    have hstep : (List.lookup p (relStep acc r).1).getD []
        = (List.lookup p acc.1).getD []
          ++ (if truthy r.parentId ∧ truthy r.childId ∧ r.parentId.getD "" = p
              then [r.childId.getD ""] else []) := by
      unfold relStep
      by_cases htr : truthy r.parentId = true ∧ truthy r.childId = true
      · rw [if_pos htr]
        rw [lookup_dappend]
        by_cases hp : p = r.parentId.getD ""
        · rw [if_pos hp, if_pos ⟨htr.1, htr.2, hp.symm⟩, hp]
          rfl
        · rw [if_neg hp, if_neg (fun hh => hp hh.2.2.symm)]
          simp
      · rw [if_neg htr, if_neg (fun hh => htr ⟨hh.1, hh.2.1⟩)]
        simp
    rw [hstep, List.append_assoc]

/-- The `workspace_map` fold: lookup finds the last workspace with the
given id, falling back to the accumulator. -/
theorem wsMap_fold_char (ws : List Workspace) :
    ∀ (acc : List (String × Workspace)) (x : String),
    List.lookup x (ws.foldl (fun m w => dinsert m w.id w) acc)
      = match lastOpt (ws.filterMap (fun w => if w.id = x then some w else none)) with
        | some w => some w
        | none => List.lookup x acc := by
  induction ws with
  | nil => intro acc x; rfl
  | cons w rest ih =>
    intro acc x
    rw [List.foldl_cons, ih (dinsert acc w.id w) x]
    have hfm : rest.filterMap (fun w2 => if w2.id = x then some w2 else none)
        = rest.filterMap (fun w2 => if w2.id = x then some w2 else none) := rfl
    have hcons : (w :: rest).filterMap (fun w2 => if w2.id = x then some w2 else none)
        = (if w.id = x then [w] else []) ++ rest.filterMap (fun w2 => if w2.id = x then some w2 else none) := by
      simp only [List.filterMap_cons]
      split_ifs <;> rfl
    rw [hcons, lastOpt_append]
    cases hrest : lastOpt (rest.filterMap (fun w2 => if w2.id = x then some w2 else none)) with
    | some v => rfl
    | none =>
      rw [lookup_dinsert]
      by_cases hx : x = w.id
      · rw [if_pos hx, if_pos hx.symm]
        rfl
      · rw [if_neg hx, if_neg (fun hh => hx hh.symm)]
        rfl

/-- `pmF` in terms of the declared-parents list. -/
theorem pmF_char (rels : List WsRelation) (c : String) :
    pmF rels c = match lastOpt (parentsOf rels c) with
      | some p => some p
      | none => none := by
  unfold pmF parent_map_of
  rw [pm_fold_char rels ([], []) c]
  rfl

/-- `cmF` is exactly the recorded-children list. -/
theorem cmF_eq_childrenOf (rels : List WsRelation) (p : String) :
    cmF rels p = childrenOf rels p := by
  unfold cmF children_map_of
  rw [cm_fold_char rels ([], []) p]
  rfl

/-! ## Derived facts about `wsMapOf` -/

/-- A lookup in the workspace map succeeds exactly for snapshot ids. -/
theorem lookup_wsMapOf_isSome_iff (workspaces : List Workspace) (x : String) :
    (List.lookup x (wsMapOf workspaces)).isSome = true ↔ x ∈ idsOf workspaces := by
  unfold wsMapOf
  rw [wsMap_fold_char workspaces [] x]
  cases hl : lastOpt (workspaces.filterMap (fun w => if w.id = x then some w else none)) with
  | some w =>
    simp only [Option.isSome_some, true_iff]
    have hw := lastOpt_mem _ _ hl
    rcases List.mem_filterMap.1 hw with ⟨w2, hw2, hif⟩
    split_ifs at hif with hid
    cases hif
    exact List.mem_map.2 ⟨_, hw2, hid⟩
  | none =>
    simp only [List.lookup]
    constructor
    · intro h
      cases h
    · intro hx
      exfalso
      rcases List.mem_map.1 hx with ⟨w, hw, hid⟩
      have : workspaces.filterMap (fun w2 => if w2.id = x then some w2 else none) = [] :=
        (lastOpt_eq_none _).1 hl
      have hmem : w ∈ workspaces.filterMap (fun w2 => if w2.id = x then some w2 else none) :=
        List.mem_filterMap.2 ⟨w, hw, by rw [if_pos hid]⟩
      rw [this] at hmem
      cases hmem

/-- A successful workspace-map lookup returns a workspace carrying the
looked-up id. -/
theorem lookup_wsMapOf_id (workspaces : List Workspace) (x : String) (w : Workspace)
    (h : List.lookup x (wsMapOf workspaces) = some w) : w.id = x := by
  unfold wsMapOf at h
  rw [wsMap_fold_char workspaces [] x] at h
  cases hl : lastOpt (workspaces.filterMap (fun w2 => if w2.id = x then some w2 else none)) with
  | some w2 =>
    rw [hl] at h
    cases h
    have hw := lastOpt_mem _ _ hl
    rcases List.mem_filterMap.1 hw with ⟨w3, _, hif⟩
    split_ifs at hif with hid
    cases hif
    exact hid
  | none =>
    rw [hl] at h
    cases h

/-- Keys present in an association list have successful lookups. -/
theorem lookup_isSome_of_mem_keys {β : Type} (m : List (String × β)) (c : String)
    (h : c ∈ m.map Prod.fst) : (List.lookup c m).isSome = true := by
  induction m with
  | nil => cases h
  | cons p ps ih =>
    rcases List.mem_cons.1 h with h | h
    · rw [show List.lookup c (p :: ps) = List.lookup c ((p.1, p.2) :: ps) from rfl,
        List.lookup_cons]
      have : (c == p.1) = true := by simpa using h
      rw [this]
      rfl
    · rw [show List.lookup c (p :: ps) = List.lookup c ((p.1, p.2) :: ps) from rfl,
        List.lookup_cons]
      cases hc : c == p.1
      · exact ih h
      · rfl

/-- Successful lookups come from present keys. -/
theorem mem_keys_of_lookup_isSome {β : Type} (m : List (String × β)) (c : String)
    (h : (List.lookup c m).isSome = true) : c ∈ m.map Prod.fst := by
  induction m with
  | nil => cases h
  | cons p ps ih =>
    rw [show List.lookup c (p :: ps) = List.lookup c ((p.1, p.2) :: ps) from rfl,
      List.lookup_cons] at h
    cases hc : c == p.1
    · rw [hc] at h
      exact List.mem_cons_of_mem _ (ih h)
    · have : c = p.1 := by simpa using hc
      exact List.mem_cons.2 (Or.inl this)

/-- `dinsert` keys are the old keys plus possibly the inserted one. -/
theorem keys_dinsert {β : Type} (m : List (String × β)) (k : String) (v : β) :
    ∀ c ∈ (dinsert m k v).map Prod.fst, c ∈ m.map Prod.fst ∨ c = k := by
  induction m with
  | nil =>
    intro c hc
    simp only [dinsert, List.map_cons, List.map_nil] at hc
    rcases List.mem_singleton.1 hc with rfl
    exact Or.inr rfl
  | cons p ps ih =>
    intro c hc
    simp only [dinsert] at hc
    split_ifs at hc with hp
    · simp only [List.map_cons] at hc
      rcases List.mem_cons.1 hc with rfl | hc
      · exact Or.inr rfl
      · exact Or.inl (List.mem_cons_of_mem _ hc)
    · simp only [List.map_cons] at hc
      rcases List.mem_cons.1 hc with rfl | hc
      · exact Or.inl (List.mem_cons_self _ _)
      · rcases ih c hc with h | h
        · exact Or.inl (List.mem_cons_of_mem _ h)
        · exact Or.inr h

/-- The workspace-map keys all come from the snapshot ids. -/
theorem wsMapOf_keys_subset (workspaces : List Workspace) :
    ∀ k ∈ (wsMapOf workspaces).map Prod.fst, k ∈ idsOf workspaces := by
  intro k hk
  have := lookup_isSome_of_mem_keys _ _ hk
  exact (lookup_wsMapOf_isSome_iff workspaces k).1 this

/-! ## Fuel adequacy for `build_node` (C4, termination half) -/

/-- Filter length is monotone in the predicate. -/
theorem length_filter_le_filter {α : Type} (l : List α) (p q : α → Bool)
    (himp : ∀ x, p x = true → q x = true) :
    (l.filter p).length ≤ (l.filter q).length := by
  induction l with
  | nil => simp
  | cons x xs ih =>
    cases hpx : p x
    · cases hqx : q x
      · simp [List.filter_cons, hpx, hqx]
        omega
      · simp [List.filter_cons, hpx, hqx]
        omega
    · have hqx := himp x hpx
      simp [List.filter_cons, hpx, hqx]
      omega

/-- Strict decrease of a filter count when one element switches from
satisfying `q` to failing `p`. -/
theorem length_filter_lt {α : Type} (l : List α) (p q : α → Bool)
    (himp : ∀ x, p x = true → q x = true) (a : α) (ha : a ∈ l)
    (hqa : q a = true) (hpa : p a = false) :
    (l.filter p).length < (l.filter q).length := by
  induction l with
  | nil => cases ha
  | cons x xs ih =>
    rcases List.mem_cons.1 ha with rfl | hmem
    · have hle := length_filter_le_filter xs p q himp
      simp [List.filter_cons, hpa, hqa]
      omega
    · have hlt := ih hmem
      cases hpx : p x
      · cases hqx : q x
        · simp [List.filter_cons, hpx, hqx]
          omega
        · simp [List.filter_cons, hpx, hqx]
          omega
      · have hqx := himp x hpx
        simp [List.filter_cons, hpx, hqx]
        omega

/-- If every workspace-mapped element of the list builds, the child loop
builds. -/
theorem build_nodes_aux_isSome (wsMap : List (String × Workspace)) (f : String → Option Node)
    (l : List String)
    (h : ∀ c ∈ l, (List.lookup c wsMap).isSome = true → (f c).isSome = true) :
    (build_nodes_aux wsMap f l).isSome = true := by
  induction l with
  | nil => rfl
  | cons c cs ih =>
    simp only [build_nodes_aux]
    by_cases hc : (List.lookup c wsMap).isSome = true
    · rw [if_pos hc]
      have hfc := h c (List.mem_cons_self _ _) hc
      have hcs := ih (fun c2 hc2 => h c2 (List.mem_cons_of_mem _ hc2))
      cases hf : f c with
      | none => rw [hf] at hfc; cases hfc
      | some nd =>
        cases haux : build_nodes_aux wsMap f cs with
        | none => rw [haux] at hcs; cases hcs
        | some nds => rfl
    · rw [if_neg hc]
      exact ih (fun c2 hc2 => h c2 (List.mem_cons_of_mem _ hc2))

/-- Fuel adequacy: `build_node` succeeds whenever the starting id is in
the workspace map and the fuel exceeds the number of map keys not yet
visited. -/
theorem build_node_isSome (wsMap : List (String × Workspace)) (cm : List (String × List String)) :
    ∀ (fuel : Nat) (wsId : String) (visited : List String),
    (List.lookup wsId wsMap).isSome = true →
    ((wsMap.map Prod.fst).filter (fun k => decide (k ∉ visited))).length < fuel →
    (build_node wsMap cm fuel wsId visited).isSome = true := by
  intro fuel
  induction fuel with
  | zero => intro wsId visited _ hlt; omega
  | succ fuel ih =>
    intro wsId visited hws hlt
    cases hlook : List.lookup wsId wsMap with
    | none => rw [hlook] at hws; cases hws
    | some ws =>
      by_cases hvis : wsId ∈ visited
      · simp only [build_node, hlook, if_pos hvis]
        rfl
      · simp only [build_node, hlook, if_neg hvis]
        have hless : ((wsMap.map Prod.fst).filter (fun k => decide (k ∉ wsId :: visited))).length
            < ((wsMap.map Prod.fst).filter (fun k => decide (k ∉ visited))).length := by
          refine length_filter_lt _ _ _ ?_ wsId ?_ ?_ ?_
          · intro x hx
            simp only [decide_eq_true_eq, List.mem_cons, not_or] at hx ⊢
            exact hx.2
          · exact mem_keys_of_lookup_isSome wsMap wsId (by rw [hlook]; rfl)
          · simpa using hvis
          · simp
        have haux : (build_nodes_aux wsMap
            (fun c => build_node wsMap cm fuel c (wsId :: visited))
            ((List.lookup wsId cm).getD [])).isSome = true := by
          refine build_nodes_aux_isSome _ _ _ ?_
          intro c _ hcs
          exact ih c (wsId :: visited) hcs (by omega)
        cases haux2 : build_nodes_aux wsMap
            (fun c => build_node wsMap cm fuel c (wsId :: visited))
            ((List.lookup wsId cm).getD []) with
        | none => rw [haux2] at haux; cases haux
        | some children => rfl

/-- The root loop builds whenever each mapped root builds. -/
theorem build_roots_isSome (wsMap : List (String × Workspace)) (cm : List (String × List String))
    (fuel : Nat) (l : List String)
    (h : ∀ r, (List.lookup r wsMap).isSome = true → (build_node wsMap cm fuel r []).isSome = true) :
    (build_roots wsMap cm fuel l).isSome = true := by
  induction l with
  | nil => rfl
  | cons r rest ih =>
    simp only [build_roots]
    by_cases hr : (List.lookup r wsMap).isSome = true
    · rw [if_pos hr]
      have hnode := h r hr
      cases hn : build_node wsMap cm fuel r [] with
      | none => rw [hn] at hnode; cases hnode
      | some nd =>
        cases hrest : build_roots wsMap cm fuel rest with
        | none => rw [hrest] at ih; cases ih
        | some p => rcases p with ⟨ns, nm⟩; rfl
    · rw [if_neg hr]
      exact ih

/-! ## C4: termination and cycle leaf -/

/-- C4 amended: `build_workspace_hierarchy` terminates on every input —
the fuel `len(workspace_map) + 1` passed by the top-level builder is
always sufficient, so the embedded builder never returns `none` — and
whenever `build_node` re-encounters a workspace already on the current
path (`ws_id in visited`), it returns that workspace as a node with an
empty children list.  (A workspace whose only relation is a self-loop
is, however, not a root and does not appear in the forest at all; see
the counterexample.) -/
theorem c4_builder_terminates_and_cycle_leaf :
    (∀ (workspaces : List Workspace) (relations : List WsRelation),
      (build_workspace_hierarchy workspaces relations).isSome = true)
    ∧ (∀ (wsMap : List (String × Workspace)) (cm : List (String × List String))
        (fuel : Nat) (wsId : String) (visited : List String) (ws : Workspace),
      List.lookup wsId wsMap = some ws → wsId ∈ visited →
      build_node wsMap cm (fuel + 1) wsId visited = some (Node.mk ws [])) := by
  constructor
  · intro workspaces relations
    simp only [build_workspace_hierarchy]
    have hroots : (build_roots (wsMapOf workspaces) (children_map_of relations)
        ((wsMapOf workspaces).length + 1)
        (((wsMapOf workspaces).map Prod.fst).filter
          (fun k => (List.lookup k (parent_map_of relations)).isNone))).isSome = true := by
      refine build_roots_isSome _ _ _ _ ?_
      intro r hr
      refine build_node_isSome _ _ _ r [] hr ?_
      have h1 : (((wsMapOf workspaces).map Prod.fst).filter
          (fun k => decide (k ∉ ([] : List String)))).length
          ≤ ((wsMapOf workspaces).map Prod.fst).length := List.length_filter_le _ _
      have h2 : ((wsMapOf workspaces).map Prod.fst).length = (wsMapOf workspaces).length :=
        List.length_map _ _
      omega
    cases hb : build_roots (wsMapOf workspaces) (children_map_of relations)
        ((wsMapOf workspaces).length + 1)
        (((wsMapOf workspaces).map Prod.fst).filter
          (fun k => (List.lookup k (parent_map_of relations)).isNone)) with
    | none => rw [hb] at hroots; cases hroots
    | some p => rcases p with ⟨ns, nm⟩; rfl
  · intro wsMap cm fuel wsId visited ws hlook hvis
    simp only [build_node, hlook, if_pos hvis]

/-- C4 counterexample: for the snapshot `[w]` with the single
self-referencing relation `(w, w)`, the builder terminates but returns an
empty forest — `w` is in `parent_map`, so it is not a root, and its
declared parent is itself, so it is never attached: it does not appear as
a childless leaf (or at all). -/
theorem c4_counterexample :
    build_workspace_hierarchy [wsW] [⟨some "w", some "w"⟩] = some ⟨[], []⟩ := rfl

/-- Witness for C4, applying the amended theorem at a concrete input. -/
theorem c4_witness :
    (build_workspace_hierarchy [wsA, wsB] [⟨some "a", some "b"⟩]).isSome = true
    ∧ build_node [("w", wsW)] [] 3 "w" ["w"] = some (Node.mk wsW []) :=
  ⟨c4_builder_terminates_and_cycle_leaf.1 [wsA, wsB] [⟨some "a", some "b"⟩],
   c4_builder_terminates_and_cycle_leaf.2 [("w", wsW)] [] 2 "w" ["w"] wsW rfl
     (List.mem_singleton.2 rfl)⟩

/-! ## Congruence of the builder in the children map (for C5) -/

/-- The child loop skips every unmapped id. -/
theorem build_nodes_aux_skip (wsMap : List (String × Workspace)) (f : String → Option Node)
    (l : List String) (h : ∀ c ∈ l, (List.lookup c wsMap).isSome = false) :
    build_nodes_aux wsMap f l = some [] := by
  induction l with
  | nil => rfl
  | cons c cs ih =>
    simp only [build_nodes_aux]
    rw [if_neg (by rw [h c (List.mem_cons_self _ _)]; exact Bool.false_ne_true)]
    exact ih (fun c2 hc2 => h c2 (List.mem_cons_of_mem _ hc2))

/-- A prefix of unmapped ids does not change the child loop. -/
theorem build_nodes_aux_append_skip (wsMap : List (String × Workspace)) (f : String → Option Node)
    (pre l : List String) (h : ∀ c ∈ pre, (List.lookup c wsMap).isSome = false) :
    build_nodes_aux wsMap f (pre ++ l) = build_nodes_aux wsMap f l := by
  induction pre with
  | nil => rfl
  | cons c cs ih =>
    rw [List.cons_append]
    simp only [build_nodes_aux]
    rw [if_neg (by rw [h c (List.mem_cons_self _ _)]; exact Bool.false_ne_true)]
    exact ih (fun c2 hc2 => h c2 (List.mem_cons_of_mem _ hc2))

/-- The child loop only depends on the mapped ids of its list and on the
recursive builder's values at mapped ids. -/
theorem build_nodes_aux_congr (wsMap : List (String × Workspace))
    (f1 f2 : String → Option Node) :
    ∀ (l1 l2 : List String),
    l1.filter (fun c => (List.lookup c wsMap).isSome) = l2.filter (fun c => (List.lookup c wsMap).isSome) →
    (∀ c, (List.lookup c wsMap).isSome = true → f1 c = f2 c) →
    build_nodes_aux wsMap f1 l1 = build_nodes_aux wsMap f2 l2 := by
  intro l1
  induction l1 with
  | nil =>
    intro l2 hl _
    have : ∀ c ∈ l2, (List.lookup c wsMap).isSome = false := by
      intro c hc
      cases hs : (List.lookup c wsMap).isSome
      · rfl
      · exfalso
        have : c ∈ l2.filter (fun c => (List.lookup c wsMap).isSome) :=
          List.mem_filter.2 ⟨hc, hs⟩
        rw [← hl] at this
        cases this
    rw [build_nodes_aux_skip wsMap f2 l2 this]
    rfl
  | cons c cs ih =>
    intro l2 hl hf
    cases hc : (List.lookup c wsMap).isSome with
    | false =>
      have hstep : build_nodes_aux wsMap f1 (c :: cs) = build_nodes_aux wsMap f1 cs := by
        simp only [build_nodes_aux]
        rw [if_neg (by rw [hc]; exact Bool.false_ne_true)]
      rw [hstep]
      refine ih l2 ?_ hf
      rw [← hl, List.filter_cons, hc]
      rfl
    | true =>
      have hcons : (c :: cs).filter (fun c2 => (List.lookup c2 wsMap).isSome)
          = c :: cs.filter (fun c2 => (List.lookup c2 wsMap).isSome) := by
        rw [List.filter_cons, hc]
        rfl
      rw [hcons] at hl
      rcases List.filter_eq_cons_iff.1 hl.symm with ⟨pre, suf, hsplit, hpre, _, hsuf⟩
      have hpre2 : ∀ c2 ∈ pre, (List.lookup c2 wsMap).isSome = false := by
        intro c2 hc2
        cases hs : (List.lookup c2 wsMap).isSome
        · rfl
        · exact absurd hs (hpre c2 hc2)
      rw [hsplit, build_nodes_aux_append_skip wsMap f2 pre (c :: suf) hpre2]
      simp only [build_nodes_aux]
      rw [if_pos hc, if_pos hc, hf c hc, ih suf hsuf.symm hf]

/-- `build_node` only depends on the children map through the mapped
children of each id. -/
theorem build_node_congr (wsMap : List (String × Workspace))
    (cm1 cm2 : List (String × List String))
    (hcm : ∀ p, ((List.lookup p cm1).getD []).filter (fun c => (List.lookup c wsMap).isSome)
        = ((List.lookup p cm2).getD []).filter (fun c => (List.lookup c wsMap).isSome)) :
    ∀ (fuel : Nat) (wsId : String) (visited : List String),
    build_node wsMap cm1 fuel wsId visited = build_node wsMap cm2 fuel wsId visited := by
  intro fuel
  induction fuel with
  | zero => intro wsId visited; rfl
  | succ fuel ih =>
    intro wsId visited
    cases hlook : List.lookup wsId wsMap with
    | none => simp only [build_node, hlook]
    | some ws =>
      by_cases hvis : wsId ∈ visited
      · simp only [build_node, hlook, if_pos hvis]
      · simp only [build_node, hlook, if_neg hvis]
        rw [build_nodes_aux_congr wsMap
          (fun c => build_node wsMap cm1 fuel c (wsId :: visited))
          (fun c => build_node wsMap cm2 fuel c (wsId :: visited))
          ((List.lookup wsId cm1).getD []) ((List.lookup wsId cm2).getD [])
          (hcm wsId) (fun c _ => ih c (wsId :: visited))]

/-- The root loop inherits builder congruence. -/
theorem build_roots_congr (wsMap : List (String × Workspace))
    (cm1 cm2 : List (String × List String)) (fuel : Nat)
    (hnode : ∀ r visited, build_node wsMap cm1 fuel r visited = build_node wsMap cm2 fuel r visited) :
    ∀ l, build_roots wsMap cm1 fuel l = build_roots wsMap cm2 fuel l := by
  intro l
  induction l with
  | nil => rfl
  | cons r rest ih =>
    simp only [build_roots]
    rw [hnode r [], ih]

/-! ## C5: relations with endpoints outside the snapshot -/

/-- `parentsOf` distributes over list append. -/
theorem parentsOf_append (l1 l2 : List WsRelation) (c : String) :
    parentsOf (l1 ++ l2) c = parentsOf l1 c ++ parentsOf l2 c := by
  unfold parentsOf
  exact List.filterMap_append _ _ _

/-- `childrenOf` distributes over list append. -/
theorem childrenOf_append (l1 l2 : List WsRelation) (p : String) :
    childrenOf (l1 ++ l2) p = childrenOf l1 p ++ childrenOf l2 p := by
  unfold childrenOf
  exact List.filterMap_append _ _ _

/-- A built node carries the workspace stored under the id it was built
for. -/
theorem build_node_id (wsMap : List (String × Workspace)) (cm : List (String × List String))
    (hid : ∀ k w, List.lookup k wsMap = some w → w.id = k) :
    ∀ (fuel : Nat) (wsId : String) (visited : List String) (nd : Node),
    build_node wsMap cm fuel wsId visited = some nd → nd.workspace.id = wsId := by
  intro fuel
  cases fuel with
  | zero => intro wsId visited nd h; cases h
  | succ fuel =>
    intro wsId visited nd h
    cases hlook : List.lookup wsId wsMap with
    | none =>
      simp only [build_node, hlook] at h
      cases h
    | some ws =>
      by_cases hvis : wsId ∈ visited
      · simp only [build_node, hlook, if_pos hvis] at h
        cases h
        exact hid _ _ hlook
      · simp only [build_node, hlook, if_neg hvis] at h
        cases haux : build_nodes_aux wsMap
            (fun c => build_node wsMap cm fuel c (wsId :: visited))
            ((List.lookup wsId cm).getD []) with
        | none => rw [haux] at h; cases h
        | some children =>
          rw [haux] at h
          cases h
          exact hid _ _ hlook

/-- Each mapped root id of the root loop contributes a built node to the
returned forest. -/
theorem build_roots_mem (wsMap : List (String × Workspace)) (cm : List (String × List String))
    (fuel : Nat) :
    ∀ (l : List String) (ns : List Node) (nm : List (String × Node)) (r : String),
    build_roots wsMap cm fuel l = some (ns, nm) → r ∈ l →
    (List.lookup r wsMap).isSome = true →
    ∃ nd, nd ∈ ns ∧ build_node wsMap cm fuel r [] = some nd := by
  intro l
  induction l with
  | nil => intro ns nm r _ hr; cases hr
  | cons r0 rest ih =>
    intro ns nm r hb hr hsome
    simp only [build_roots] at hb
    by_cases hr0 : (List.lookup r0 wsMap).isSome = true
    · rw [if_pos hr0] at hb
      cases hn : build_node wsMap cm fuel r0 [] with
      | none => rw [hn] at hb; cases hb
      | some nd0 =>
        rw [hn] at hb
        cases hrest : build_roots wsMap cm fuel rest with
        | none => rw [hrest] at hb; cases hb
        | some p =>
          rcases p with ⟨ns2, nm2⟩
          rw [hrest] at hb
          cases hb
          rcases List.mem_cons.1 hr with rfl | hr
          · exact ⟨nd0, List.mem_cons_self _ _, hn⟩
          · rcases ih ns2 nm2 r hrest hr hsome with ⟨nd, hmem, hnd⟩
            exact ⟨nd, List.mem_cons_of_mem _ hmem, hnd⟩
    · rw [if_neg hr0] at hb
      rcases List.mem_cons.1 hr with rfl | hr
      · rw [hsome] at hr0
        exact absurd rfl hr0
      · exact ih ns nm r hb hr hsome

/-- C5 amended: a relation that the loop skips (a falsy endpoint) or
whose child id is outside the snapshot has no effect on the built
hierarchy; and every snapshot workspace with no `parent_map` entry
appears in the forest as a root.  (A relation whose child is in the
snapshot but whose parent is not, however, does change the forest: it
suppresses the child, as the counterexample shows.) -/
theorem c5_out_of_snapshot_relations :
    (∀ (workspaces : List Workspace) (pre post : List WsRelation) (r : WsRelation),
      (truthy r.parentId = false ∨ truthy r.childId = false
        ∨ r.childId.getD "" ∉ idsOf workspaces) →
      build_workspace_hierarchy workspaces (pre ++ r :: post)
        = build_workspace_hierarchy workspaces (pre ++ post))
    ∧ (∀ (workspaces : List Workspace) (relations : List WsRelation) (x : String) (h : Hierarchy),
      x ∈ idsOf workspaces → pmF relations x = none →
      build_workspace_hierarchy workspaces relations = some h →
      ∃ nd, nd ∈ h.roots ∧ nd.workspace.id = x) := by
  constructor
  · intro workspaces pre post r hcond
    by_cases htr : truthy r.parentId = true ∧ truthy r.childId = true
    · -- recorded relation whose child is outside the snapshot
      have hc0 : r.childId.getD "" ∉ idsOf workspaces := by
        rcases hcond with h | h | h
        · rw [htr.1] at h; cases h
        · rw [htr.2] at h; cases h
        · exact h
      have hpm : ∀ k, k ∈ idsOf workspaces →
          List.lookup k (parent_map_of (pre ++ r :: post))
            = List.lookup k (parent_map_of (pre ++ post)) := by
        intro k hk
        have hkc : r.childId.getD "" ≠ k := fun hc => hc0 (hc ▸ hk)
        unfold parent_map_of
        rw [pm_fold_char (pre ++ r :: post) ([], []) k, pm_fold_char (pre ++ post) ([], []) k]
        have hps : parentsOf (pre ++ r :: post) k = parentsOf (pre ++ post) k := by
          rw [parentsOf_append, parentsOf_append]
          have : parentsOf (r :: post) k = parentsOf post k := by
            simp only [parentsOf, List.filterMap_cons]
            rw [if_neg (fun hh => hkc hh.2.2)]
          rw [this]
        rw [hps]
      have hcm : ∀ p, ((List.lookup p (children_map_of (pre ++ r :: post))).getD []).filter
            (fun c => (List.lookup c (wsMapOf workspaces)).isSome)
          = ((List.lookup p (children_map_of (pre ++ post))).getD []).filter
            (fun c => (List.lookup c (wsMapOf workspaces)).isSome) := by
        intro p
        have h1 : (List.lookup p (children_map_of (pre ++ r :: post))).getD []
            = childrenOf (pre ++ r :: post) p := cmF_eq_childrenOf _ p
        have h2 : (List.lookup p (children_map_of (pre ++ post))).getD []
            = childrenOf (pre ++ post) p := cmF_eq_childrenOf _ p
        rw [h1, h2, childrenOf_append, childrenOf_append]
        have hmid : childrenOf (r :: post) p
            = (if truthy r.parentId ∧ truthy r.childId ∧ r.parentId.getD "" = p
                then [r.childId.getD ""] else []) ++ childrenOf post p := by
          simp only [childrenOf, List.filterMap_cons]
          split_ifs <;> rfl
        rw [hmid]
        by_cases hp : truthy r.parentId ∧ truthy r.childId ∧ r.parentId.getD "" = p
        · rw [if_pos hp]
          rw [List.filter_append, List.filter_append, List.filter_append]
          have hskip : ([r.childId.getD ""].filter
              (fun c => (List.lookup c (wsMapOf workspaces)).isSome)) = [] := by
            have : (List.lookup (r.childId.getD "") (wsMapOf workspaces)).isSome = false := by
              cases hs : (List.lookup (r.childId.getD "") (wsMapOf workspaces)).isSome
              · rfl
              · exact absurd ((lookup_wsMapOf_isSome_iff _ _).1 hs) hc0
            simp [List.filter_cons, this]
          rw [hskip]
          simp
        · rw [if_neg hp]
          rfl
      -- assemble the builder equality
      simp only [build_workspace_hierarchy]
      have hroots : (((wsMapOf workspaces).map Prod.fst).filter
            (fun k => (List.lookup k (parent_map_of (pre ++ r :: post))).isNone))
          = (((wsMapOf workspaces).map Prod.fst).filter
            (fun k => (List.lookup k (parent_map_of (pre ++ post))).isNone)) := by
        refine List.filter_congr ?_
        intro k hk
        rw [hpm k (wsMapOf_keys_subset workspaces k hk)]
      rw [hroots,
        build_roots_congr (wsMapOf workspaces) _ _ ((wsMapOf workspaces).length + 1)
          (fun r2 visited => build_node_congr (wsMapOf workspaces) _ _ hcm
            ((wsMapOf workspaces).length + 1) r2 visited) _]
    · -- the relation loop skips this relation entirely
      have hid : relStep = relStep := rfl
      have hfold : ∀ acc : List (String × List String) × List (String × String),
          (pre ++ r :: post).foldl relStep acc = (pre ++ post).foldl relStep acc := by
        intro acc
        rw [List.foldl_append, List.foldl_append, List.foldl_cons]
        have : relStep (pre.foldl relStep acc) r = pre.foldl relStep acc := by
          unfold relStep
          rw [if_neg htr]
        rw [this]
      simp only [build_workspace_hierarchy]
      unfold children_map_of parent_map_of
      rw [hfold ([], [])]
  · intro workspaces relations x h hx hpm hbuild
    have hxsome : (List.lookup x (wsMapOf workspaces)).isSome = true :=
      (lookup_wsMapOf_isSome_iff workspaces x).2 hx
    have hxkeys : x ∈ (wsMapOf workspaces).map Prod.fst :=
      mem_keys_of_lookup_isSome _ _ hxsome
    have hroot : x ∈ ((wsMapOf workspaces).map Prod.fst).filter
        (fun k => (List.lookup k (parent_map_of relations)).isNone) := by
      refine List.mem_filter.2 ⟨hxkeys, ?_⟩
      have : List.lookup x (parent_map_of relations) = none := hpm
      rw [this]
      rfl
    simp only [build_workspace_hierarchy] at hbuild
    cases hb : build_roots (wsMapOf workspaces) (children_map_of relations)
        ((wsMapOf workspaces).length + 1)
        (((wsMapOf workspaces).map Prod.fst).filter
          (fun k => (List.lookup k (parent_map_of relations)).isNone)) with
    | none => rw [hb] at hbuild; cases hbuild
    | some p =>
      rcases p with ⟨ns, nm⟩
      rw [hb] at hbuild
      cases hbuild
      rcases build_roots_mem (wsMapOf workspaces) (children_map_of relations)
          ((wsMapOf workspaces).length + 1) _ ns nm x hb hroot hxsome with ⟨nd, hmem, hnd⟩
      exact ⟨nd, hmem, build_node_id _ _ (fun k w hw => lookup_wsMapOf_id workspaces k w hw)
        _ _ _ _ hnd⟩

/-- C5 counterexample: the relation `(p, w)` references the parent `p`
outside the snapshot `[w]`, yet it is not ignored — with it the forest is
empty (`w` is marked as a child and never attached), without it `w` is a
root; the forest changes and `w` disappears from it. -/
theorem c5_counterexample :
    build_workspace_hierarchy [wsW] [⟨some "p", some "w"⟩] = some ⟨[], []⟩
    ∧ build_workspace_hierarchy [wsW] []
        = some ⟨[Node.mk wsW []], [("w", Node.mk wsW [])]⟩ :=
  ⟨rfl, rfl⟩

/-- Witness for C5, applying the amended theorem at concrete inputs: a
relation whose child id is outside the snapshot is dropped without
effect, and a parentless snapshot workspace appears among the roots. -/
theorem c5_witness :
    build_workspace_hierarchy [wsA] [⟨some "a", some "zz"⟩]
      = build_workspace_hierarchy [wsA] []
    ∧ ∃ nd, nd ∈ (Hierarchy.mk [Node.mk wsA []] [("a", Node.mk wsA [])]).roots
        ∧ nd.workspace.id = "a" := by
  constructor
  · have := c5_out_of_snapshot_relations.1 [wsA] [] [] ⟨some "a", some "zz"⟩
      (Or.inr (Or.inr (by decide)))
    simpa using this
  · exact c5_out_of_snapshot_relations.2 [wsA] [] "a" ⟨[Node.mk wsA []], [("a", Node.mk wsA [])]⟩
      (by decide) rfl rfl

/-! ## The parent map under unique child declarations (for C3) -/

/-- A child with a declared parent is among the recorded child ids. -/
theorem pmF_mem_truthyChildIds (rels : List WsRelation) (c p : String)
    (h : pmF rels c = some p) : c ∈ truthyChildIds rels := by
  rw [pmF_char] at h
  cases hl : lastOpt (parentsOf rels c) with
  | none => rw [hl] at h; cases h
  | some q =>
    have hq := lastOpt_mem _ _ hl
    rcases List.mem_filterMap.1 hq with ⟨r, hr, hif⟩
    split_ifs at hif with hcond
    cases hif
    exact List.mem_filterMap.2 ⟨r, hr, by rw [if_pos ⟨hcond.1, hcond.2.1⟩, hcond.2.2]⟩

/-- A child never recorded has no declared parents. -/
theorem parentsOf_nil_of_not_mem (rels : List WsRelation) (c : String)
    (h : c ∉ truthyChildIds rels) : parentsOf rels c = [] := by
  induction rels with
  | nil => rfl
  | cons r rest ih =>
    have hrest : c ∉ truthyChildIds rest := by
      intro hc
      refine h ?_
      unfold truthyChildIds at hc ⊢
      rw [List.filterMap_cons]
      split_ifs with hr
      · exact List.mem_cons_of_mem _ hc
      · exact hc
    unfold parentsOf
    rw [List.filterMap_cons]
    split_ifs with hr
    · exfalso
      refine h ?_
      unfold truthyChildIds
      rw [List.filterMap_cons, if_pos ⟨hr.1, hr.2.1⟩, hr.2.2]
      exact List.mem_cons_self _ _
    · exact ih hrest

/-- Under unique child declarations, a child has at most one declared
parent. -/
theorem parentsOf_subsingleton (rels : List WsRelation) (c : String)
    (hU : (truthyChildIds rels).Nodup) :
    parentsOf rels c = [] ∨ ∃ p, parentsOf rels c = [p] := by
  induction rels with
  | nil => exact Or.inl rfl
  | cons r rest ih =>
    by_cases hr : truthy r.parentId = true ∧ truthy r.childId = true ∧ r.childId.getD "" = c
    · right
      refine ⟨r.parentId.getD "", ?_⟩
      unfold parentsOf
      rw [List.filterMap_cons, if_pos hr]
      have hcin : truthyChildIds (r :: rest) = c :: truthyChildIds rest := by
        unfold truthyChildIds
        rw [List.filterMap_cons, if_pos ⟨hr.1, hr.2.1⟩, hr.2.2]
      rw [hcin] at hU
      have hnotin : c ∉ truthyChildIds rest := (List.nodup_cons.1 hU).1
      rw [show rest.filterMap (fun r2 =>
        if truthy r2.parentId ∧ truthy r2.childId ∧ r2.childId.getD "" = c
        then some (r2.parentId.getD "") else none) = parentsOf rest c from rfl]
      rw [parentsOf_nil_of_not_mem rest c hnotin]
    · have hU2 : (truthyChildIds rest).Nodup := by
        unfold truthyChildIds at hU
        rw [List.filterMap_cons] at hU
        split_ifs at hU with h2
        · exact (List.nodup_cons.1 hU).2
        · exact hU
      have := ih hU2
      unfold parentsOf
      rw [List.filterMap_cons, if_neg hr]
      exact this

/-- Under unique child declarations, the declared parent characterizes
`parent_map`. -/
theorem pmF_some_iff (rels : List WsRelation) (hU : (truthyChildIds rels).Nodup)
    (c p : String) :
    pmF rels c = some p ↔ ∃ r ∈ rels, (truthy r.parentId = true ∧ truthy r.childId = true)
      ∧ r.childId.getD "" = c ∧ r.parentId.getD "" = p := by
  constructor
  · intro h
    rw [pmF_char] at h
    cases hl : lastOpt (parentsOf rels c) with
    | none => rw [hl] at h; cases h
    | some q =>
      rw [hl] at h
      cases h
      have hq := lastOpt_mem _ _ hl
      rcases List.mem_filterMap.1 hq with ⟨r, hr, hif⟩
      split_ifs at hif with hcond
      cases hif
      exact ⟨r, hr, ⟨hcond.1, hcond.2.1⟩, hcond.2.2, rfl⟩
  · rintro ⟨r, hr, htr, hc, hp⟩
    have hpmem : p ∈ parentsOf rels c :=
      List.mem_filterMap.2 ⟨r, hr, by rw [if_pos ⟨htr.1, htr.2, hc⟩, hp]⟩
    rcases parentsOf_subsingleton rels c hU with hnil | ⟨q, hq⟩
    · rw [hnil] at hpmem
      cases hpmem
    · rw [hq] at hpmem
      rcases List.mem_singleton.1 hpmem with rfl
      rw [pmF_char, hq]
      rfl

/-- Under unique child declarations, `children_map` membership coincides
with the declared parent. -/
theorem cmF_mem_iff (rels : List WsRelation) (hU : (truthyChildIds rels).Nodup)
    (c p : String) :
    c ∈ cmF rels p ↔ pmF rels c = some p := by
  rw [cmF_eq_childrenOf, pmF_some_iff rels hU]
  constructor
  · intro h
    rcases List.mem_filterMap.1 h with ⟨r, hr, hif⟩
    split_ifs at hif with hcond
    cases hif
    exact ⟨r, hr, ⟨hcond.1, hcond.2.1⟩, rfl, hcond.2.2⟩
  · rintro ⟨r, hr, htr, hc, hp⟩
    exact List.mem_filterMap.2 ⟨r, hr, by rw [if_pos ⟨htr.1, htr.2, hp⟩, hc]⟩

/-- The recorded children of a parent form a sublist of all recorded
child ids. -/
theorem childrenOf_sublist (rels : List WsRelation) (p : String) :
    List.Sublist (childrenOf rels p) (truthyChildIds rels) := by
  induction rels with
  | nil => exact List.Sublist.refl _
  | cons r rest ih =>
    unfold childrenOf truthyChildIds
    rw [List.filterMap_cons, List.filterMap_cons]
    by_cases h1 : truthy r.parentId = true ∧ truthy r.childId = true ∧ r.parentId.getD "" = p
    · rw [if_pos h1, if_pos ⟨h1.1, h1.2.1⟩]
      exact List.Sublist.cons₂ _ ih
    · rw [if_neg h1]
      by_cases h2 : truthy r.parentId = true ∧ truthy r.childId = true
      · rw [if_pos h2]
        exact List.Sublist.cons _ ih
      · rw [if_neg h2]
        exact ih

/-- Under unique child declarations, each `children_map` entry has no
duplicates. -/
theorem cmF_nodup (rels : List WsRelation) (hU : (truthyChildIds rels).Nodup) (p : String) :
    (cmF rels p).Nodup := by
  rw [cmF_eq_childrenOf]
  exact List.Nodup.sublist (childrenOf_sublist rels p) hU

/-! ## Reachability along the declared-parent map (for C3) -/

/-- Climbing chains from a common start are comparable (the parent map is
a function). -/
theorem reaches_total (rels : List WsRelation) (x c c' : String)
    (h1 : reaches rels x c) (h2 : reaches rels x c') :
    reaches rels c c' ∨ reaches rels c' c := by
  unfold reaches at h1 h2 ⊢
  induction h1 using Relation.ReflTransGen.head_induction_on with
  | refl => exact Or.inl h2
  | head hstep htail ih =>
    rename_i a b
    rcases h2.cases_head with rfl | ⟨d, hstep2, htail2⟩
    · exact Or.inr (Relation.ReflTransGen.head hstep htail)
    · have hbd : b = d := by
        have h1' : pmF rels a = some b := hstep
        have h2' : pmF rels a = some d := hstep2
        rw [h1'] at h2'
        cases h2'
        rfl
      cases hbd
      exact ih htail2

/-- A descendant cycle through the declared parent is a cycle. -/
theorem reaches_no_desc_cycle (rels : List WsRelation) (hA : acyclicRels rels)
    (y c : String) (hc : pmF rels c = some y) (h : reaches rels y c) : False :=
  hA y (Relation.TransGen.tail' h hc)

/-- Under acyclicity, the chain from `x` meets at most one declared child
of `y`. -/
theorem reaches_child_unique (rels : List WsRelation) (hA : acyclicRels rels)
    (x y c c' : String) (hc : pmF rels c = some y) (hc' : pmF rels c' = some y)
    (h1 : reaches rels x c) (h2 : reaches rels x c') : c = c' := by
  rcases reaches_total rels x c c' h1 h2 with h | h
  · rcases h.cases_head with rfl | ⟨d, hstep, htail⟩
    · rfl
    · have hd : d = y := by
        have : pmF rels c = some d := hstep
        rw [hc] at this
        cases this
        rfl
      cases hd
      exact False.elim (hA y (Relation.TransGen.tail' htail hc'))
  · rcases h.cases_head with rfl | ⟨d, hstep, htail⟩
    · rfl
    · have hd : d = y := by
        have : pmF rels c' = some d := hstep
        rw [hc'] at this
        cases this
        rfl
      cases hd
      exact False.elim (hA y (Relation.TransGen.tail' htail hc))

/-! ## Root ancestors via the climbing iteration (for C3) -/

/-- Every climb prefix is a reachability fact. -/
theorem iterUp_reaches (rels : List WsRelation) : ∀ (n : Nat) (x : String),
    reaches rels x (iterUp rels n x) := by
  intro n
  induction n with
  | zero => intro x; exact Relation.ReflTransGen.refl
  | succ n ih =>
    intro x
    simp only [iterUp]
    cases hp : pmF rels (iterUp rels n x) with
    | none => exact ih x
    | some p => exact Relation.ReflTransGen.tail (ih x) hp

/-- Strictly later climb positions are strict ancestors, as long as the
climb has not stalled. -/
theorem iterUp_transGen (rels : List WsRelation) (x : String) :
    ∀ (j i : Nat), i < j →
    (∀ k, k < j → (pmF rels (iterUp rels k x)).isSome = true) →
    Relation.TransGen (stepUp rels) (iterUp rels i x) (iterUp rels j x) := by
  intro j
  induction j with
  | zero => intro i hij; omega
  | succ j ih =>
    intro i hij hsome
    have hj : (pmF rels (iterUp rels j x)).isSome = true := hsome j (by omega)
    cases hp : pmF rels (iterUp rels j x) with
    | none => rw [hp] at hj; cases hj
    | some p =>
      have hstep : stepUp rels (iterUp rels j x) (iterUp rels (j + 1) x) := by
        unfold stepUp
        rw [hp]
        simp only [iterUp, hp]
      by_cases hi : i = j
      · cases hi
        exact Relation.TransGen.single hstep
      · have hij2 : i < j := by omega
        exact Relation.TransGen.tail (ih i hij2 (fun k hk => hsome k (by omega))) hstep

/-- Under acyclicity every workspace has a root ancestor. -/
theorem exists_root_ancestor (rels : List WsRelation) (hA : acyclicRels rels) (x : String) :
    ∃ rt, reaches rels x rt ∧ pmF rels rt = none := by
  by_contra hcon
  push_neg at hcon
  have hsome : ∀ k : Nat, (pmF rels (iterUp rels k x)).isSome = true := by
    intro k
    have := hcon (iterUp rels k x) (iterUp_reaches rels k x)
    cases hp : pmF rels (iterUp rels k x)
    · exact absurd hp this
    · rfl
  set S := truthyChildIds rels with hS
  set L := (List.range (S.length + 1)).map (fun k => iterUp rels k x) with hL
  have hlen : L.length = S.length + 1 := by
    rw [hL, List.length_map, List.length_range]
  have hmemS : ∀ a ∈ L, a ∈ S := by
    intro a ha
    rcases List.mem_map.1 ha with ⟨k, _, rfl⟩
    have hk := hsome k
    cases hp : pmF rels (iterUp rels k x) with
    | none => rw [hp] at hk; cases hk
    | some p => exact pmF_mem_truthyChildIds rels _ p hp
  have hnodup : L.Nodup := by
    rw [hL]
    refine List.Nodup.map_on ?_ (List.nodup_range _)
    intro i hi j hj hij
    by_contra hne
    rcases Nat.lt_or_ge i j with hlt | hge
    · exact hA (iterUp rels i x)
        (hij ▸ iterUp_transGen rels x j i hlt (fun k _ => hsome k))
    · have hlt : j < i := by omega
      exact hA (iterUp rels j x)
        (hij ▸ iterUp_transGen rels x i j hlt (fun k _ => hsome k))
  have hcard1 : L.toFinset.card = L.length := List.toFinset_card_of_nodup hnodup
  have hsub : L.toFinset ⊆ S.toFinset := by
    intro a ha
    rw [List.mem_toFinset] at ha ⊢
    exact hmemS a ha
  have hcard2 : L.toFinset.card ≤ S.toFinset.card := Finset.card_le_card hsub
  have hcard3 : S.toFinset.card ≤ S.length := S.toFinset_card_le
  omega

/-- Root ancestors are unique. -/
theorem root_ancestor_unique (rels : List WsRelation)
    (x rt rt' : String) (h1 : reaches rels x rt) (hr1 : pmF rels rt = none)
    (h2 : reaches rels x rt') (hr2 : pmF rels rt' = none) : rt = rt' := by
  rcases reaches_total rels x rt rt' h1 h2 with h | h
  · rcases h.cases_head with rfl | ⟨d, hstep, _⟩
    · rfl
    · have : pmF rels rt = some d := hstep
      rw [hr1] at this
      cases this
  · rcases h.cases_head with rfl | ⟨d, hstep, _⟩
    · rfl
    · have : pmF rels rt' = some d := hstep
      rw [hr2] at this
      cases this

/-! ## Generic counting over the builder loops (for C3) -/

/-- Sum of an indicator with no satisfying element. -/
theorem sum_indicator_zero {P : String → Prop} [DecidablePred P] :
    ∀ (l : List String), (∀ c ∈ l, ¬ P c) →
    (l.map (fun c => if P c then 1 else 0)).sum = 0 := by
  intro l
  induction l with
  | nil => intro _; rfl
  | cons a as ih =>
    intro hP
    simp only [List.map_cons, List.sum_cons, if_neg (hP a (List.mem_cons_self _ _))]
    rw [ih (fun c hc => hP c (List.mem_cons_of_mem _ hc))]


/-- Sum of an indicator over a duplicate-free list containing exactly one
satisfying element. -/
theorem sum_indicator_unique {P : String → Prop} [DecidablePred P] :
    ∀ (l : List String), l.Nodup → ∀ c', c' ∈ l → (∀ c ∈ l, P c ↔ c = c') →
    (l.map (fun c => if P c then 1 else 0)).sum = 1 := by
  intro l
  induction l with
  | nil => intro _ c' hm; cases hm
  | cons a as ih =>
    intro hnd c' hm hP
    rcases List.mem_cons.1 hm with rfl | hm2
    · have ha : P c' := (hP c' (List.mem_cons_self _ _)).2 rfl
      have hrest : ∀ c ∈ as, ¬ P c := by
        intro c hc hPc
        have : c = c' := (hP c (List.mem_cons_of_mem _ hc)).1 hPc
        cases this
        exact (List.nodup_cons.1 hnd).1 hc
      simp only [List.map_cons, List.sum_cons, if_pos ha, sum_indicator_zero as hrest]
    · have hna : ¬ P a := by
        intro hPa
        have : a = c' := (hP a (List.mem_cons_self _ _)).1 hPa
        cases this
        exact (List.nodup_cons.1 hnd).1 hm2
      simp only [List.map_cons, List.sum_cons, if_neg hna]
      rw [ih (List.nodup_cons.1 hnd).2 c' hm2
        (fun c hc => hP c (List.mem_cons_of_mem _ hc))]
/-- A generic additive measure over the child loop: the measure of the
built node list is the sum of a per-child weight over the mapped
children. -/
theorem build_nodes_aux_sum (wsMap : List (String × Workspace)) (f : String → Option Node)
    (μ : Node → Nat) (μs : List Node → Nat)
    (hnil : μs [] = 0) (hcons : ∀ n ns, μs (n :: ns) = μ n + μs ns)
    (g : String → Nat) :
    ∀ (l : List String), (∀ c ∈ l, (List.lookup c wsMap).isSome = true →
      ∀ nd, f c = some nd → μ nd = g c) →
    ∀ (ns : List Node), build_nodes_aux wsMap f l = some ns →
    μs ns = ((l.filter (fun c => (List.lookup c wsMap).isSome)).map g).sum := by
  intro l
  induction l with
  | nil =>
    intro _ ns hns
    cases hns
    simp [hnil]
  | cons c cs ih =>
    intro hf ns hns
    simp only [build_nodes_aux] at hns
    by_cases hc : (List.lookup c wsMap).isSome = true
    · rw [if_pos hc] at hns
      cases hfc : f c with
      | none => rw [hfc] at hns; cases hns
      | some nd =>
        rw [hfc] at hns
        cases haux : build_nodes_aux wsMap f cs with
        | none => rw [haux] at hns; cases hns
        | some ns2 =>
          rw [haux] at hns
          cases hns
          rw [hcons, List.filter_cons, hc]
          simp only [if_true, List.map_cons, List.sum_cons]
          rw [hf c (List.mem_cons_self _ _) hc nd hfc,
            ih (fun c2 hc2 => hf c2 (List.mem_cons_of_mem _ hc2)) ns2 haux]
    · rw [if_neg hc] at hns
      have hcf : (List.lookup c wsMap).isSome = false := by
        cases h2 : (List.lookup c wsMap).isSome
        · rfl
        · exact absurd h2 hc
      rw [List.filter_cons, hcf]
      simp only [Bool.false_eq_true, if_false]
      exact ih (fun c2 hc2 => hf c2 (List.mem_cons_of_mem _ hc2)) ns hns

/-- The same additive-measure sum over the root loop. -/
theorem build_roots_sum (wsMap : List (String × Workspace)) (cm : List (String × List String))
    (fuel : Nat) (μ : Node → Nat) (μs : List Node → Nat)
    (hnil : μs [] = 0) (hcons : ∀ n ns, μs (n :: ns) = μ n + μs ns)
    (g : String → Nat) :
    ∀ (l : List String), (∀ r ∈ l, (List.lookup r wsMap).isSome = true →
      ∀ nd, build_node wsMap cm fuel r [] = some nd → μ nd = g r) →
    ∀ (ns : List Node) (nm : List (String × Node)), build_roots wsMap cm fuel l = some (ns, nm) →
    μs ns = ((l.filter (fun r => (List.lookup r wsMap).isSome)).map g).sum := by
  intro l
  induction l with
  | nil =>
    intro _ ns nm hns
    cases hns
    simp [hnil]
  | cons r rest ih =>
    intro hf ns nm hns
    simp only [build_roots] at hns
    by_cases hr : (List.lookup r wsMap).isSome = true
    · rw [if_pos hr] at hns
      cases hn : build_node wsMap cm fuel r [] with
      | none => rw [hn] at hns; cases hns
      | some nd =>
        rw [hn] at hns
        cases hrest : build_roots wsMap cm fuel rest with
        | none => rw [hrest] at hns; cases hns
        | some pr =>
          rcases pr with ⟨ns2, nm2⟩
          rw [hrest] at hns
          cases hns
          rw [hcons, List.filter_cons, hr]
          simp only [if_true, List.map_cons, List.sum_cons]
          rw [hf r (List.mem_cons_self _ _) hr nd hn,
            ih (fun r2 hr2 => hf r2 (List.mem_cons_of_mem _ hr2)) ns2 nm2 hrest]
    · rw [if_neg hr] at hns
      have hrf : (List.lookup r wsMap).isSome = false := by
        cases h2 : (List.lookup r wsMap).isSome
        · rfl
        · exact absurd h2 hr
      rw [List.filter_cons, hrf]
      simp only [Bool.false_eq_true, if_false]
      exact ih (fun r2 hr2 => hf r2 (List.mem_cons_of_mem _ hr2)) ns nm hns

/-- Pulling a constant factor out of a mapped sum. -/
theorem sum_map_mul_right (f : String → Nat) (K : Nat) : ∀ (l : List String),
    (l.map (fun c => f c * K)).sum = (l.map f).sum * K := by
  intro l
  induction l with
  | nil => simp
  | cons a as ih => simp [ih, Nat.add_mul]

/-- In a duplicate-free list, the number of occurrences of an element is
its membership indicator. -/
theorem length_filter_eq_count (x : String) : ∀ (l : List String), l.Nodup →
    (l.filter (fun c => c = x)).length = if x ∈ l then 1 else 0 := by
  intro l
  induction l with
  | nil => intro _; rfl
  | cons a as ih =>
    intro hnd
    by_cases hax : a = x
    · subst hax
      simp [List.filter_cons, (List.nodup_cons.1 hnd).1, ih (List.nodup_cons.1 hnd).2]
    · have hxa : ¬ x = a := fun h => hax h.symm
      simp [List.filter_cons, hax, hxa, List.mem_cons, ih (List.nodup_cons.1 hnd).2]

/-- Filtering nodes by workspace id counts the same as filtering the id
list. -/
theorem nodes_filter_length (x : String) : ∀ (ns : List Node),
    (ns.filter (fun nd => nd.workspace.id = x)).length =
    ((ns.map (fun nd => nd.workspace.id)).filter (fun c => c = x)).length := by
  intro ns
  induction ns with
  | nil => rfl
  | cons n ns2 ih =>
    rw [List.map_cons, List.filter_cons, List.filter_cons]
    by_cases hx : n.workspace.id = x
    · simp only [hx, decide_True, if_true, List.length_cons, ih]
    · simp only [hx, decide_False, Bool.false_eq_true, if_false, ih]

/-- The ids of the nodes built by the child loop are exactly the child
ids surviving the snapshot-membership filter. -/
theorem build_nodes_aux_ids (wsMap : List (String × Workspace)) (f : String → Option Node)
    (hf : ∀ c, ∀ nd, f c = some nd → nd.workspace.id = c) :
    ∀ (l : List String) (ns : List Node), build_nodes_aux wsMap f l = some ns →
    ns.map (fun nd => nd.workspace.id) = l.filter (fun c => (List.lookup c wsMap).isSome) := by
  intro l
  induction l with
  | nil => intro ns hns; cases hns; rfl
  | cons c cs ih =>
    intro ns hns
    simp only [build_nodes_aux] at hns
    by_cases hc : (List.lookup c wsMap).isSome = true
    · rw [if_pos hc] at hns
      cases hfc : f c with
      | none => rw [hfc] at hns; cases hns
      | some nd =>
        rw [hfc] at hns
        cases haux : build_nodes_aux wsMap f cs with
        | none => rw [haux] at hns; cases hns
        | some ns2 =>
          rw [haux] at hns
          cases hns
          rw [List.filter_cons, hc]
          simp only [if_true, List.map_cons]
          rw [hf c nd hfc, ih ns2 haux]
    · rw [if_neg hc] at hns
      have hcf : (List.lookup c wsMap).isSome = false := by
        cases h2 : (List.lookup c wsMap).isSome
        · rfl
        · exact absurd h2 hc
      rw [List.filter_cons, hcf]
      simp only [Bool.false_eq_true, if_false]
      exact ih ns hns

open Classical in
/-- Summing the reached-by-`p` indicator over the in-snapshot recorded
children of `y` gives 1 exactly when the climb from `p` passes strictly
through `y`. -/
theorem children_reach_sum (rels : List WsRelation) (workspaces : List Workspace)
    (hU : (truthyChildIds rels).Nodup)
    (hC : ∀ c p, pmF rels c = some p → c ∈ idsOf workspaces)
    (hA : acyclicRels rels) (p y : String) :
    (((cmF rels y).filter (fun c => (List.lookup c (wsMapOf workspaces)).isSome)).map
      (fun c => if reaches rels p c then 1 else 0)).sum
    = if reaches rels p y ∧ p ≠ y then 1 else 0 := by
  have hfe : (cmF rels y).filter (fun c => (List.lookup c (wsMapOf workspaces)).isSome)
      = cmF rels y := by
    rw [List.filter_eq_self]
    intro c hc
    exact (lookup_wsMapOf_isSome_iff workspaces c).2
      (hC c y ((cmF_mem_iff rels hU c y).1 hc))
  rw [hfe]
  by_cases hry : reaches rels p y
  · by_cases hpy : p = y
    · cases hpy
      rw [if_neg (fun h => h.2 rfl)]
      apply sum_indicator_zero
      intro c hc hpc
      exact reaches_no_desc_cycle rels hA p c ((cmF_mem_iff rels hU c p).1 hc) hpc
    · rw [if_pos ⟨hry, hpy⟩]
      rcases Relation.ReflTransGen.cases_tail hry with heq | ⟨c', hrc', hstep⟩
      · exact absurd heq.symm hpy
      · apply sum_indicator_unique (cmF rels y) (cmF_nodup rels hU y) c'
          ((cmF_mem_iff rels hU c' y).2 hstep)
        intro c hc
        constructor
        · intro hpc
          exact reaches_child_unique rels hA p y c c'
            ((cmF_mem_iff rels hU c y).1 hc) hstep hpc hrc'
        · rintro rfl
          exact hrc'
  · rw [if_neg (fun h => hry h.1)]
    apply sum_indicator_zero
    intro c hc hpc
    exact hry (Relation.ReflTransGen.tail hpc ((cmF_mem_iff rels hU c y).1 hc))

open Classical in
/-- Each subtree built by `build_node` contains each workspace id exactly
once per descendant position: the count of `x` in the subtree rooted at
`y` is the indicator of `y` being an ancestor of `x` (given unique child
declarations, in-snapshot children, acyclicity, and a visited set disjoint
from the ancestors of `y`). -/
theorem build_node_count (workspaces : List Workspace) (rels : List WsRelation)
    (hU : (truthyChildIds rels).Nodup)
    (hC : ∀ c p, pmF rels c = some p → c ∈ idsOf workspaces)
    (hA : acyclicRels rels) (x : String) :
    ∀ (fuel : Nat) (y : String) (visited : List String) (nd : Node),
    build_node (wsMapOf workspaces) (children_map_of rels) fuel y visited = some nd →
    (∀ d, reaches rels d y → d ∉ visited) →
    countNode x nd = if reaches rels x y then 1 else 0 := by
  intro fuel
  induction fuel with
  | zero => intro y visited nd hb; cases hb
  | succ fuel ih =>
    intro y visited nd hb hinv
    cases hlook : List.lookup y (wsMapOf workspaces) with
    | none =>
      simp only [build_node, hlook] at hb
      exact Option.noConfusion hb
    | some ws =>
      have hyvis : y ∉ visited := hinv y Relation.ReflTransGen.refl
      simp only [build_node, hlook, if_neg hyvis] at hb
      cases haux : build_nodes_aux (wsMapOf workspaces)
          (fun c => build_node (wsMapOf workspaces) (children_map_of rels) fuel c (y :: visited))
          ((List.lookup y (children_map_of rels)).getD []) with
      | none =>
        simp only [haux] at hb
        exact Option.noConfusion hb
      | some children =>
        simp only [haux] at hb
        cases hb
        have hid : ws.id = y := lookup_wsMapOf_id workspaces y ws hlook
        have hsum : countNodes x children =
            (((cmF rels y).filter
              (fun c => (List.lookup c (wsMapOf workspaces)).isSome)).map
              (fun c => if reaches rels x c then 1 else 0)).sum := by
          refine build_nodes_aux_sum (wsMapOf workspaces) _ (countNode x) (countNodes x) rfl
            (fun n ns => rfl) (fun c => if reaches rels x c then 1 else 0)
            (cmF rels y) ?_ children haux
          intro c hcmem hcsome nd2 hnd2
          have hpc : pmF rels c = some y := (cmF_mem_iff rels hU c y).1 hcmem
          refine ih c (y :: visited) nd2 hnd2 ?_
          intro d hdc hdmem
          rcases List.mem_cons.1 hdmem with rfl | hdvis
          · exact reaches_no_desc_cycle rels hA d c hpc hdc
          · exact hinv d (Relation.ReflTransGen.tail hdc hpc) hdvis
        have hcsum : countNodes x children = if reaches rels x y ∧ x ≠ y then 1 else 0 := by
          rw [hsum, children_reach_sum rels workspaces hU hC hA x y]
        rw [show countNode x (Node.mk ws children)
          = (if ws.id = x then 1 else 0) + countNodes x children from rfl, hid, hcsum]
        by_cases hxy : y = x
        · cases hxy
          rw [if_pos rfl,
            if_neg (show ¬ (reaches rels x x ∧ x ≠ x) from fun h => h.2 rfl),
            if_pos (show reaches rels x x from Relation.ReflTransGen.refl)]
        · rw [if_neg hxy]
          by_cases hr : reaches rels x y
          · rw [if_pos (show reaches rels x y ∧ x ≠ y from ⟨hr, fun h => hxy h.symm⟩),
              if_pos hr]
          · rw [if_neg (show ¬ (reaches rels x y ∧ x ≠ y) from fun h => hr h.1), if_neg hr]

open Classical in
/-- Each subtree built by `build_node` contains each parent/child id
incidence exactly once per descendant position: the number of positions
at which a `p`-node has a direct `x`-child is the indicator of `y` being
an ancestor of `p` times the (0-or-1) number of recorded in-snapshot
`x`-children of `p`. -/
theorem build_node_childOcc (workspaces : List Workspace) (rels : List WsRelation)
    (hU : (truthyChildIds rels).Nodup)
    (hC : ∀ c p, pmF rels c = some p → c ∈ idsOf workspaces)
    (hA : acyclicRels rels) (p x : String) (K : Nat)
    (hK : K = (((cmF rels p).filter
      (fun c => (List.lookup c (wsMapOf workspaces)).isSome)).filter
      (fun c => c = x)).length) :
    ∀ (fuel : Nat) (y : String) (visited : List String) (nd : Node),
    build_node (wsMapOf workspaces) (children_map_of rels) fuel y visited = some nd →
    (∀ d, reaches rels d y → d ∉ visited) →
    countChildOcc p x nd = (if reaches rels p y then 1 else 0) * K := by
  intro fuel
  induction fuel with
  | zero => intro y visited nd hb; cases hb
  | succ fuel ih =>
    intro y visited nd hb hinv
    cases hlook : List.lookup y (wsMapOf workspaces) with
    | none =>
      simp only [build_node, hlook] at hb
      exact Option.noConfusion hb
    | some ws =>
      have hyvis : y ∉ visited := hinv y Relation.ReflTransGen.refl
      simp only [build_node, hlook, if_neg hyvis] at hb
      cases haux : build_nodes_aux (wsMapOf workspaces)
          (fun c => build_node (wsMapOf workspaces) (children_map_of rels) fuel c (y :: visited))
          ((List.lookup y (children_map_of rels)).getD []) with
      | none =>
        simp only [haux] at hb
        exact Option.noConfusion hb
      | some children =>
        simp only [haux] at hb
        cases hb
        have hid : ws.id = y := lookup_wsMapOf_id workspaces y ws hlook
        have hids : children.map (fun nd => nd.workspace.id)
            = (cmF rels y).filter (fun c => (List.lookup c (wsMapOf workspaces)).isSome) := by
          refine build_nodes_aux_ids (wsMapOf workspaces) _ ?_ (cmF rels y) children haux
          intro c nd2 hnd2
          exact build_node_id (wsMapOf workspaces) (children_map_of rels)
            (fun k w hw => lookup_wsMapOf_id workspaces k w hw) fuel c (y :: visited) nd2 hnd2
        have hsum : countChildOccs p x children =
            (((cmF rels y).filter
              (fun c => (List.lookup c (wsMapOf workspaces)).isSome)).map
              (fun c => (if reaches rels p c then 1 else 0) * K)).sum := by
          refine build_nodes_aux_sum (wsMapOf workspaces) _ (countChildOcc p x)
            (countChildOccs p x) rfl (fun n ns => rfl)
            (fun c => (if reaches rels p c then 1 else 0) * K)
            (cmF rels y) ?_ children haux
          intro c hcmem hcsome nd2 hnd2
          have hpc : pmF rels c = some y := (cmF_mem_iff rels hU c y).1 hcmem
          refine ih c (y :: visited) nd2 hnd2 ?_
          intro d hdc hdmem
          rcases List.mem_cons.1 hdmem with rfl | hdvis
          · exact reaches_no_desc_cycle rels hA d c hpc hdc
          · exact hinv d (Relation.ReflTransGen.tail hdc hpc) hdvis
        have hcsum : countChildOccs p x children
            = (if reaches rels p y ∧ p ≠ y then 1 else 0) * K := by
          rw [hsum]
          simp only [sum_map_mul_right]
          rw [children_reach_sum rels workspaces hU hC hA p y]
        have hheadlen : (children.filter (fun c => c.workspace.id = x)).length
            = (((cmF rels y).filter
              (fun c => (List.lookup c (wsMapOf workspaces)).isSome)).filter
              (fun c => c = x)).length := by
          rw [nodes_filter_length x children, hids]
        rw [show countChildOcc p x (Node.mk ws children)
          = (if ws.id = p then (children.filter (fun c => c.workspace.id = x)).length else 0)
            + countChildOccs p x children from rfl, hid, hcsum]
        by_cases hyp : y = p
        · cases hyp
          rw [if_pos rfl, hheadlen, ← hK,
            if_neg (show ¬ (reaches rels p p ∧ p ≠ p) from fun h => h.2 rfl),
            if_pos (show reaches rels p p from Relation.ReflTransGen.refl),
            Nat.zero_mul, Nat.one_mul, Nat.add_zero]
        · rw [if_neg hyp]
          by_cases hr : reaches rels p y
          · rw [if_pos (show reaches rels p y ∧ p ≠ y from ⟨hr, fun h => hyp h.symm⟩),
              if_pos hr, Nat.zero_add]
          · rw [if_neg (show ¬ (reaches rels p y ∧ p ≠ y) from fun h => hr h.1), if_neg hr,
              Nat.zero_mul, Nat.zero_add]

/-- `dinsert` preserves duplicate-freeness of the keys. -/
theorem nodup_keys_dinsert {β : Type} (k : String) (v : β) :
    ∀ (m : List (String × β)), (m.map Prod.fst).Nodup →
    ((dinsert m k v).map Prod.fst).Nodup := by
  intro m
  induction m with
  | nil => intro _; simp [dinsert]
  | cons p ps ih =>
    intro h
    rw [List.map_cons, List.nodup_cons] at h
    simp only [dinsert]
    split_ifs with hp
    · rw [List.map_cons, List.nodup_cons]
      exact ⟨fun hk => h.1 (hp ▸ hk), h.2⟩
    · rw [List.map_cons, List.nodup_cons]
      refine ⟨fun hk => ?_, ih h.2⟩
      rcases keys_dinsert ps k v p.1 hk with h2 | h2
      · exact h.1 h2
      · exact hp h2

/-- The workspace map built by the registry fold has duplicate-free
keys. -/
theorem wsMapOf_keys_nodup (workspaces : List Workspace) :
    ((wsMapOf workspaces).map Prod.fst).Nodup := by
  have hgen : ∀ (ws : List Workspace) (acc : List (String × Workspace)),
      (acc.map Prod.fst).Nodup →
      (((ws.foldl (fun m w => dinsert m w.id w) acc)).map Prod.fst).Nodup := by
    intro ws
    induction ws with
    | nil => intro acc h; exact h
    | cons w rest ih =>
      intro acc h
      exact ih (dinsert acc w.id w) (nodup_keys_dinsert w.id w acc h)
  exact hgen workspaces [] (by simp)

/-- A successful lookup returns one of the stored values. -/
theorem lookup_mem_values {β : Type} : ∀ (m : List (String × β)) (a : String) (b : β),
    List.lookup a m = some b → b ∈ m.map Prod.snd := by
  intro m
  induction m with
  | nil => intro a b h; cases h
  | cons p ps ih =>
    intro a b h
    rw [show List.lookup a (p :: ps) = List.lookup a ((p.1, p.2) :: ps) from rfl,
      List.lookup_cons] at h
    cases ha : a == p.1
    · rw [ha] at h
      exact List.mem_cons_of_mem _ (ih a b h)
    · rw [ha] at h
      cases h
      exact List.mem_cons_self _ _

/-- If every parent recorded in `parent_map` is itself a root, the
relation graph is acyclic (gives concrete acyclicity proofs by finite
evaluation). -/
theorem acyclic_of_root_parents (rels : List WsRelation)
    (h : ∀ b ∈ (parent_map_of rels).map Prod.snd, pmF rels b = none) :
    acyclicRels rels := by
  have h2 : ∀ a b, pmF rels a = some b → pmF rels b = none := by
    intro a b hab
    exact h b (lookup_mem_values (parent_map_of rels) a b hab)
  intro x hcyc
  rcases Relation.TransGen.head'_iff.1 hcyc with ⟨b, hxb, hbx⟩
  have hxb' : pmF rels x = some b := hxb
  have hbnone := h2 x b hxb'
  rcases Relation.ReflTransGen.cases_head hbx with heq | ⟨c, hbc, _⟩
  · cases heq
    rw [hbnone] at hxb'
    exact Option.noConfusion hxb'
  · have hbc' : pmF rels b = some c := hbc
    rw [hbnone] at hbc'
    exact Option.noConfusion hbc'

/-- Lookup in a one-entry dict succeeds only at the stored key/value. -/
theorem lookup_singleton_eq {β : Type} (c k : String) (v p : β)
    (h : List.lookup c [(k, v)] = some p) : c = k ∧ p = v := by
  rw [show List.lookup c [(k, v)] = List.lookup c ((k, v) :: []) from rfl,
    List.lookup_cons] at h
  cases hc : c == k
  · rw [hc] at h
    cases h
  · rw [hc] at h
    cases h
    exact ⟨by simpa using hc, rfl⟩

open Classical in
/-- C3 (corrected): with unique child declarations, relation endpoints
inside the snapshot, and an acyclic relation graph, every non-root
workspace appears exactly once in the forest built by
`build_workspace_hierarchy`, and exactly once as a direct child of a node
carrying its declared parent. -/
theorem c3_nonroot_under_declared_parent (workspaces : List Workspace)
    (rels : List WsRelation)
    (hU : (truthyChildIds rels).Nodup)
    (hticks : ∀ c q, pmF rels c = some q → c ∈ idsOf workspaces ∧ q ∈ idsOf workspaces)
    (hA : acyclicRels rels)
    (h : Hierarchy) (hbwh : build_workspace_hierarchy workspaces rels = some h)
    (x p : String) (hx : x ∈ idsOf workspaces) (hp : pmF rels x = some p) :
    countNodes x h.roots = 1 ∧ countChildOccs p x h.roots = 1 := by
  have hC1 : ∀ c q, pmF rels c = some q → c ∈ idsOf workspaces :=
    fun c q hcq => (hticks c q hcq).1
  simp only [build_workspace_hierarchy] at hbwh
  cases hroots : build_roots (wsMapOf workspaces) (children_map_of rels)
      ((wsMapOf workspaces).length + 1)
      (((wsMapOf workspaces).map Prod.fst).filter
        (fun k => (List.lookup k (parent_map_of rels)).isNone)) with
  | none =>
    simp only [hroots] at hbwh
    exact Option.noConfusion hbwh
  | some pr =>
    rcases pr with ⟨ns, nm⟩
    simp only [hroots] at hbwh
    cases hbwh
    show countNodes x ns = 1 ∧ countChildOccs p x ns = 1
    have hin : ∀ r ∈ ((wsMapOf workspaces).map Prod.fst).filter
        (fun k => (List.lookup k (parent_map_of rels)).isNone),
        (List.lookup r (wsMapOf workspaces)).isSome = true :=
      fun r hr => lookup_isSome_of_mem_keys _ _ (List.mem_of_mem_filter hr)
    have hfe : (((wsMapOf workspaces).map Prod.fst).filter
        (fun k => (List.lookup k (parent_map_of rels)).isNone)).filter
        (fun r => (List.lookup r (wsMapOf workspaces)).isSome)
        = ((wsMapOf workspaces).map Prod.fst).filter
        (fun k => (List.lookup k (parent_map_of rels)).isNone) :=
      List.filter_eq_self.2 hin
    have hndroot : (((wsMapOf workspaces).map Prod.fst).filter
        (fun k => (List.lookup k (parent_map_of rels)).isNone)).Nodup :=
      (wsMapOf_keys_nodup workspaces).filter _
    have hrootmem : ∀ z, z ∈ idsOf workspaces → ∀ rt, reaches rels z rt →
        pmF rels rt = none →
        rt ∈ ((wsMapOf workspaces).map Prod.fst).filter
          (fun k => (List.lookup k (parent_map_of rels)).isNone) := by
      intro z hz rt hreach hrtnone
      have hrtids : rt ∈ idsOf workspaces := by
        rcases Relation.ReflTransGen.cases_tail hreach with heq | ⟨c', hzc', hstep⟩
        · cases heq
          exact hz
        · exact (hticks c' rt hstep).2
      refine List.mem_filter.2 ⟨?_, ?_⟩
      · exact mem_keys_of_lookup_isSome _ _
          ((lookup_wsMapOf_isSome_iff workspaces rt).2 hrtids)
      · show (List.lookup rt (parent_map_of rels)).isNone = true
        have h3 : List.lookup rt (parent_map_of rels) = none := hrtnone
        rw [h3]
        rfl
    rcases exists_root_ancestor rels hA x with ⟨rt, hreach, hrtnone⟩
    have hrtmem := hrootmem x hx rt hreach hrtnone
    have hiff : ∀ r ∈ ((wsMapOf workspaces).map Prod.fst).filter
        (fun k => (List.lookup k (parent_map_of rels)).isNone),
        reaches rels x r ↔ r = rt := by
      intro r hr
      constructor
      · intro hr2
        have hrnone : pmF rels r = none :=
          Option.isNone_iff_eq_none.1 (List.mem_filter.1 hr).2
        exact root_ancestor_unique rels x r rt hr2 hrnone hreach hrtnone
      · rintro rfl
        exact hreach
    have hcount1 : countNodes x ns = 1 := by
      have hsum := build_roots_sum (wsMapOf workspaces) (children_map_of rels)
        ((wsMapOf workspaces).length + 1) (countNode x) (countNodes x) rfl
        (fun n ns2 => rfl) (fun r => if reaches rels x r then 1 else 0)
        (((wsMapOf workspaces).map Prod.fst).filter
          (fun k => (List.lookup k (parent_map_of rels)).isNone))
        (fun r hr hrs nd hnd => build_node_count workspaces rels hU hC1 hA x
          ((wsMapOf workspaces).length + 1) r [] nd hnd (fun d _ => List.not_mem_nil d))
        ns nm hroots
      rw [hfe] at hsum
      rw [hsum]
      exact sum_indicator_unique _ hndroot rt hrtmem hiff
    have hpids : p ∈ idsOf workspaces := (hticks x p hp).2
    rcases exists_root_ancestor rels hA p with ⟨rt2, hreach2, hrt2none⟩
    have hrt2mem := hrootmem p hpids rt2 hreach2 hrt2none
    have hiff2 : ∀ r ∈ ((wsMapOf workspaces).map Prod.fst).filter
        (fun k => (List.lookup k (parent_map_of rels)).isNone),
        reaches rels p r ↔ r = rt2 := by
      intro r hr
      constructor
      · intro hr2
        have hrnone : pmF rels r = none :=
          Option.isNone_iff_eq_none.1 (List.mem_filter.1 hr).2
        exact root_ancestor_unique rels p r rt2 hr2 hrnone hreach2 hrt2none
      · rintro rfl
        exact hreach2
    have hKval : (((cmF rels p).filter
        (fun c => (List.lookup c (wsMapOf workspaces)).isSome)).filter
        (fun c => c = x)).length = 1 := by
      have hfep : (cmF rels p).filter
          (fun c => (List.lookup c (wsMapOf workspaces)).isSome) = cmF rels p := by
        rw [List.filter_eq_self]
        intro c hc
        exact (lookup_wsMapOf_isSome_iff workspaces c).2
          (hC1 c p ((cmF_mem_iff rels hU c p).1 hc))
      rw [hfep, length_filter_eq_count x (cmF rels p) (cmF_nodup rels hU p),
        if_pos ((cmF_mem_iff rels hU x p).2 hp)]
    have hcount2 : countChildOccs p x ns = 1 := by
      have hsum := build_roots_sum (wsMapOf workspaces) (children_map_of rels)
        ((wsMapOf workspaces).length + 1) (countChildOcc p x) (countChildOccs p x) rfl
        (fun n ns2 => rfl)
        (fun r => (if reaches rels p r then 1 else 0) *
          (((cmF rels p).filter
            (fun c => (List.lookup c (wsMapOf workspaces)).isSome)).filter
            (fun c => c = x)).length)
        (((wsMapOf workspaces).map Prod.fst).filter
          (fun k => (List.lookup k (parent_map_of rels)).isNone))
        (fun r hr hrs nd hnd => build_node_childOcc workspaces rels hU hC1 hA p x _ rfl
          ((wsMapOf workspaces).length + 1) r [] nd hnd (fun d _ => List.not_mem_nil d))
        ns nm hroots
      rw [hfe] at hsum
      rw [hsum]
      simp only [sum_map_mul_right]
      rw [sum_indicator_unique (((wsMapOf workspaces).map Prod.fst).filter
          (fun k => (List.lookup k (parent_map_of rels)).isNone))
        hndroot rt2 hrt2mem hiff2, Nat.one_mul]
      exact hKval
    exact ⟨hcount1, hcount2⟩

/-- Counterexample to C3 as stated: the single relation `p → w` is
acyclic and makes `w` a non-root workspace (its declared parent is `p`),
yet with `p` absent from the snapshot the built forest is empty, so `w`
appears zero times rather than exactly once under its declared parent. -/
theorem c3_counterexample :
    acyclicRels [WsRelation.mk (some "p") (some "w")] ∧
    pmF [WsRelation.mk (some "p") (some "w")] "w" = some "p" ∧
    build_workspace_hierarchy [wsW] [WsRelation.mk (some "p") (some "w")]
      = some (Hierarchy.mk [] []) ∧
    countNodes "w" (Hierarchy.mk [] []).roots = 0 :=
  ⟨acyclic_of_root_parents _ (by decide), by decide, rfl, rfl⟩

/-- Witness: the corrected C3 theorem applied to the snapshot
`[wsA, wsW]` with the single in-snapshot relation `a → w`: the non-root
workspace `w` appears exactly once, under its declared parent `a`. -/
theorem c3_witness :
    countNodes "w" [Node.mk wsA [Node.mk wsW []]] = 1 ∧
    countChildOccs "a" "w" [Node.mk wsA [Node.mk wsW []]] = 1 := by
  have hticks : ∀ c q, pmF [WsRelation.mk (some "a") (some "w")] c = some q →
      c ∈ idsOf [wsA, wsW] ∧ q ∈ idsOf [wsA, wsW] := by
    intro c q hcq
    have h2 : List.lookup c [("w", "a")] = some q := hcq
    rcases lookup_singleton_eq c "w" "a" q h2 with ⟨rfl, rfl⟩
    exact ⟨by decide, by decide⟩
  exact c3_nonroot_under_declared_parent [wsA, wsW] [WsRelation.mk (some "a") (some "w")]
    (by decide) hticks (acyclic_of_root_parents _ (by decide))
    (Hierarchy.mk [Node.mk wsA [Node.mk wsW []]] [("a", Node.mk wsA [Node.mk wsW []])])
    rfl "w" "a" (by decide) (by decide)

/-- C7: a workspace with itemColor "purple" (outside the valid color set)
is always flagged by the OKR compliance formatter, regardless of its
other fields; the ProdMgt formatter performs no color validation, so its
has-violation flag does not depend on the item color at all. -/
theorem c7_purple_flagging (users : List (String × User))
    (groups : List (String × UserGroup)) (workspace : Workspace)
    (current_user_id : String) (depth : Nat) (show_all : Bool)
    (hcol : workspace.itemColor = some "purple") :
    (OkrCompliance.format_workspace_access users groups workspace
      current_user_id depth show_all).2 = true
    ∧ (ProdMgtCompliance.format_workspace_access users groups workspace
        current_user_id depth show_all).2
      = (ProdMgtCompliance.format_workspace_access users groups
          { workspace with itemColor := some "blue" } current_user_id depth show_all).2 := by
  constructor
  · simp only [OkrCompliance.format_workspace_access, hcol]
    simp
  · rfl

/-- Counterexample to C7 as stated: `wsPurple` carries itemColor
"purple" yet the ProdMgt compliance formatter does not flag it (its flag
ignores the color entirely). -/
theorem c7_counterexample :
    wsPurple.itemColor = some "purple"
    ∧ (ProdMgtCompliance.format_workspace_access [] [] wsPurple "me" 0 false).2 = false :=
  ⟨rfl, rfl⟩

/-- Witness: the corrected C7 theorem applied to the concrete purple
workspace `wsPurple`. -/
theorem c7_witness :
    (OkrCompliance.format_workspace_access [] [] wsPurple "me" 0 false).2 = true
    ∧ (ProdMgtCompliance.format_workspace_access [] [] wsPurple "me" 0 false).2
      = (ProdMgtCompliance.format_workspace_access [] []
          { wsPurple with itemColor := some "blue" } "me" 0 false).2 :=
  c7_purple_flagging [] [] wsPurple "me" 0 false rfl
